import Mathlib

/-!
Shallow embedding of the excel-to-sheets repository (src/app.py and
src/app_standalone.py): the Excel column-letter codec, the per-file CSV
cleanup pipeline (clean_csv), and the merge/sort engine of the main loop,
together with proofs about the specified behaviour.

Cells are modelled as string-or-missing (Option String), as in the spec's
data model for tabular files; a missing cell (pandas NaN) compares unequal
to every string, matching elementwise pandas equality on values read from
CSV.
-/

/-- Cell of a table: a string value or missing (pandas NaN / pd.NA). -/
abbrev Cell := Option String

/-- Model of a pandas DataFrame: ordered column labels plus rows of cells.
Rows are rectangular in well-formed tables (see Table.WF). -/
structure Table where
  cols : List String
  rows : List (List Cell)
deriving DecidableEq

/-- Well-formedness: each row has exactly one cell per column. -/
def Table.WF (t : Table) : Prop := ∀ r ∈ t.rows, r.length = t.cols.length

instance (t : Table) : Decidable t.WF :=
  inferInstanceAs (Decidable (∀ r ∈ t.rows, r.length = t.cols.length))

/-- Loop body of col_letter_to_index (src/app.py lines 12-14):
result = result * 26 + (ord(ch) - ord("A") + 1), folded over the characters. -/
def letterLoop (result : Int) : List Char → Int
  | [] => result
  | ch :: rest => letterLoop (result * 26 + ((ch.toNat : Int) - 65 + 1)) rest

/-- Convert Excel-style column letter(s) to a 0-based index
(src/app.py col_letter_to_index): uppercase the string, run the loop on its
characters, subtract one. Total, like the Python function. -/
def col_letter_to_index (letter : String) : Int :=
  letterLoop 0 (letter.data.map Char.toUpper) - 1

/-- Fuelled form of the while-loop of index_to_col_letter (src/app.py
lines 21-23): while n > 0: n, rem = divmod(n - 1, 26); s = chr(65 + rem) + s.
The first argument is fuel; since (n-1)/26 < n, fuel n always suffices. -/
def indexLoopAux : Nat → Nat → List Char
  | _, 0 => []
  | 0, _ + 1 => []
  | fuel + 1, n + 1 => indexLoopAux fuel (n / 26) ++ [Char.ofNat (65 + n % 26)]

/-- The while-loop of index_to_col_letter run to completion on n. -/
def indexLoop (n : Nat) : List Char := indexLoopAux n n

/-- Convert a 0-based index to Excel-style column letters
(src/app.py index_to_col_letter). For a negative index the Python loop body
never runs and the empty string is returned. -/
def index_to_col_letter (idx : Int) : String :=
  ⟨indexLoop (idx + 1).toNat⟩

/-- Model of Python str.upper() restricted to the strings involved here
(ASCII): uppercase every character. -/
def py_upper (s : String) : String := ⟨s.data.map Char.toUpper⟩

theorem indexLoopAux_zero (f : Nat) : indexLoopAux f 0 = [] := by
  cases f <;> rfl

theorem indexLoopAux_congr (n : Nat) : ∀ f₁ f₂, n ≤ f₁ → n ≤ f₂ →
    indexLoopAux f₁ n = indexLoopAux f₂ n := by
  induction n using Nat.strong_induction_on with
  | _ n ih =>
    intro f₁ f₂ h₁ h₂
    match n, f₁, f₂, h₁, h₂ with
    | 0, a, b, _, _ => rw [indexLoopAux_zero, indexLoopAux_zero]
    | m + 1, g₁ + 1, g₂ + 1, h₁, h₂ =>
      have hd : m / 26 ≤ m := Nat.div_le_self m 26
      show indexLoopAux g₁ (m / 26) ++ _ = indexLoopAux g₂ (m / 26) ++ _
      rw [ih (m / 26) (by omega) g₁ g₂ (by omega) (by omega)]

theorem indexLoop_succ (n : Nat) :
    indexLoop (n + 1) = indexLoop (n / 26) ++ [Char.ofNat (65 + n % 26)] := by
  have hd : n / 26 ≤ n := Nat.div_le_self n 26
  show indexLoopAux n (n / 26) ++ _ = indexLoopAux (n / 26) (n / 26) ++ _
  rw [indexLoopAux_congr (n / 26) n (n / 26) hd (Nat.le_refl _)]

theorem char_toNat_ofNat_valid : ∀ k < 123, (Char.ofNat k).toNat = k := by decide

theorem char_toUpper_of_upper {c : Char} (h65 : 65 ≤ c.toNat) (h90 : c.toNat ≤ 90) :
    Char.toUpper c = c := by
  show (if c.toNat ≥ 97 ∧ c.toNat ≤ 122 then Char.ofNat (c.toNat - 32) else c) = c
  rw [if_neg (by omega)]

theorem char_toUpper_toNat_of_lower {c : Char} (h97 : 97 ≤ c.toNat) (h122 : c.toNat ≤ 122) :
    (Char.toUpper c).toNat = c.toNat - 32 := by
  show (if c.toNat ≥ 97 ∧ c.toNat ≤ 122 then Char.ofNat (c.toNat - 32) else c).toNat = _
  rw [if_pos ⟨h97, h122⟩]
  exact char_toNat_ofNat_valid _ (by omega)

theorem letterLoop_append (r : Int) (l₁ l₂ : List Char) :
    letterLoop r (l₁ ++ l₂) = letterLoop (letterLoop r l₁) l₂ := by
  induction l₁ generalizing r with
  | nil => rfl
  | cons c cs ih => simp [letterLoop, ih]

theorem letterLoop_indexLoop (n : Nat) :
    letterLoop 0 ((indexLoop n).map Char.toUpper) = (n : Int) := by
  induction n using Nat.strong_induction_on with
  | _ n ih =>
    match n with
    | 0 => rfl
    | m + 1 =>
      have hd : m / 26 ≤ m := Nat.div_le_self m 26
      rw [indexLoop_succ, List.map_append, letterLoop_append, ih (m / 26) (by omega)]
      have h1 : (Char.ofNat (65 + m % 26)).toNat = 65 + m % 26 :=
        char_toNat_ofNat_valid _ (by omega)
      simp only [List.map, letterLoop]
      rw [char_toUpper_of_upper (by omega) (by omega), h1]
      have hm := Nat.div_add_mod m 26
      omega

theorem indexLoop_letterLoop (l : List Char) (hne : l ≠ [])
    (hv : ∀ c ∈ l, 65 ≤ c.toNat ∧ c.toNat ≤ 90) :
    1 ≤ letterLoop 0 l ∧ indexLoop (letterLoop 0 l).toNat = l := by
  induction l using List.reverseRecOn with
  | nil => exact absurd rfl hne
  | append_singleton l c ih =>
    have hc : 65 ≤ c.toNat ∧ c.toNat ≤ 90 := hv c (by simp)
    rw [letterLoop_append]
    by_cases hl : l = []
    · subst hl
      simp only [letterLoop]
      have hval : (0 : Int) * 26 + ((c.toNat : Int) - 65 + 1) = (c.toNat : Int) - 64 := by ring
      rw [hval]
      refine ⟨by omega, ?_⟩
      have ht : ((c.toNat : Int) - 64).toNat = c.toNat - 64 := by omega
      rw [ht]
      have h64 : c.toNat - 64 = (c.toNat - 65) + 1 := by omega
      rw [h64, indexLoop_succ]
      have hq : (c.toNat - 65) / 26 = 0 := Nat.div_eq_of_lt (by omega)
      have hr : (c.toNat - 65) % 26 = c.toNat - 65 := Nat.mod_eq_of_lt (by omega)
      rw [hq, hr]
      have h65 : 65 + (c.toNat - 65) = c.toNat := by omega
      rw [h65, Char.ofNat_toNat]
      rfl
    · obtain ⟨h1, h2⟩ := ih hl (fun x hx => hv x (by simp [hx]))
      set v := letterLoop 0 l with hvdef
      have hva : v = ((v.toNat : Int)) := by omega
      simp only [letterLoop]
      set k := c.toNat with hkdef
      have hk : 65 ≤ k ∧ k ≤ 90 := hc
      constructor
      · have : 1 ≤ v := h1
        nlinarith [this]
      · have hV : (v * 26 + ((k : Int) - 65 + 1)).toNat = v.toNat * 26 + (k - 64) := by
          omega
        rw [hV]
        have hm : v.toNat * 26 + (k - 64) = (v.toNat * 26 + (k - 64) - 1) + 1 := by omega
        rw [hm, indexLoop_succ]
        have hq : (v.toNat * 26 + (k - 64) - 1) / 26 = v.toNat := by omega
        have hr : (v.toNat * 26 + (k - 64) - 1) % 26 = k - 65 := by omega
        rw [hq, hr, h2]
        have h65 : 65 + (k - 65) = k := by omega
        rw [h65, hkdef, Char.ofNat_toNat]

/-- C3: for every valid column-letter string s (one or more A-Z/a-z
characters), converting to an index and back yields uppercase(s); and for
every index i ≥ 0, converting to letters and back yields i. -/
theorem claim_C3_roundtrip (s : String) (i : Int)
    (hne : s.data ≠ [])
    (hv : ∀ c ∈ s.data, (65 ≤ c.toNat ∧ c.toNat ≤ 90) ∨ (97 ≤ c.toNat ∧ c.toNat ≤ 122))
    (hi : 0 ≤ i) :
    index_to_col_letter (col_letter_to_index s) = py_upper s ∧
    col_letter_to_index (index_to_col_letter i) = i := by
  constructor
  · set l := s.data.map Char.toUpper with hldef
    have hlv : ∀ c ∈ l, 65 ≤ c.toNat ∧ c.toNat ≤ 90 := by
      intro c hcl
      rw [hldef] at hcl
      obtain ⟨c₀, hc₀, rfl⟩ := List.mem_map.mp hcl
      rcases hv c₀ hc₀ with h | h
      · rw [char_toUpper_of_upper h.1 h.2]; exact h
      · rw [char_toUpper_toNat_of_lower h.1 h.2]; omega
    have hlne : l ≠ [] := by
      rw [hldef]
      intro hcon
      exact hne (List.map_eq_nil_iff.mp hcon)
    obtain ⟨h1, h2⟩ := indexLoop_letterLoop l hlne hlv
    show (⟨indexLoop (letterLoop 0 l - 1 + 1).toNat⟩ : String) = py_upper s
    have hstep : letterLoop 0 l - 1 + 1 = letterLoop 0 l := by ring
    rw [hstep, h2]
    rfl
  · have hn : ((i + 1).toNat : Int) = i + 1 := by omega
    show letterLoop 0 ((indexLoop (i + 1).toNat).map Char.toUpper) - 1 = i
    rw [letterLoop_indexLoop, hn]
    ring

theorem claim_C3_roundtrip_witness :
    ("ab" : String).data ≠ [] ∧
    (∀ c ∈ ("ab" : String).data,
      (65 ≤ c.toNat ∧ c.toNat ≤ 90) ∨ (97 ≤ c.toNat ∧ c.toNat ≤ 122)) ∧
    (0 : Int) ≤ 27 ∧
    (index_to_col_letter (col_letter_to_index "ab") = py_upper "ab" ∧
     col_letter_to_index (index_to_col_letter 27) = 27) :=
  ⟨by decide, by decide, by decide,
    claim_C3_roundtrip "ab" 27 (by decide) (by decide) (by decide)⟩

/-- C7 counterexample: neither codec function fails on the inputs the claim
says they reject. col_letter_to_index returns -1 on the empty string and an
ordinary integer on a non-alphabetic string, and index_to_col_letter returns
the empty string on a negative index; no error is raised anywhere. -/
theorem claim_C7_counterexample :
    col_letter_to_index "" = -1 ∧ col_letter_to_index "A1" = 10 ∧
    index_to_col_letter (-1) = "" ∧ index_to_col_letter (-7) = "" := by
  decide

/-- C7 (amended): the codec functions are total and never raise:
col_letter_to_index yields -1 on the empty string (and an ordinary integer on
any string, alphabetic or not), and index_to_col_letter yields the empty
string on every negative index. -/
theorem claim_C7_total (i : Int) (hi : i < 0) :
    col_letter_to_index "" = -1 ∧ index_to_col_letter i = "" := by
  refine ⟨by decide, ?_⟩
  show (⟨indexLoop (i + 1).toNat⟩ : String) = ""
  have h0 : (i + 1).toNat = 0 := by omega
  rw [h0]
  rfl

theorem claim_C7_total_witness :
    (-5 : Int) < 0 ∧
    (col_letter_to_index "" = -1 ∧ index_to_col_letter (-5) = "") :=
  ⟨by decide, claim_C7_total (-5) (by decide)⟩

/-- Filter/sort/drop configuration (src/app.py lines 27-31). -/
def FILTER_K_LETTER : String := "K"

/-- Second filter column letter (src/app.py line 28). -/
def FILTER_M_LETTER : String := "M"

/-- Expected value in column K (src/app.py line 29). -/
def FILTER_K_VALUE : String := "Station"

/-- Expected value in column M (src/app.py line 30). -/
def FILTER_M_VALUE : String := "SOC 5"

/-- Sort column letter (src/app.py line 31). -/
def SORT_LETTER : String := "X"

/-- Inclusive drop ranges, as (start letter, end letter) (src/app.py line 33). -/
def DROP_RANGES_LETTERS : List (String × String) :=
  [("C", "I"), ("K", "M"), ("O", "U"), ("Y", "Z"), ("AE", "AH")]

/-- Column indices the pipeline needs to access (src/app.py lines 36-40). -/
def neededIdxs : List Int :=
  [col_letter_to_index FILTER_K_LETTER,
   col_letter_to_index FILTER_M_LETTER,
   col_letter_to_index SORT_LETTER] ++
  DROP_RANGES_LETTERS.map (fun p => col_letter_to_index p.2)

/-- Maximum needed column index (src/app.py line 41): Python max over the
nonempty list of needed indices. -/
def MAX_NEEDED_IDX : Int :=
  match neededIdxs with
  | [] => 0
  | h :: t => t.foldl max h

/-- The width padding guarantees: MAX_NEEDED_IDX + 1 columns. -/
def requiredWidth : Nat := (MAX_NEEDED_IDX + 1).toNat

/-- Per-row effect of the pandas column assignment df[name] = pd.NA when the
label already exists: every cell lying under a column labelled name becomes
missing; the other cells are unchanged. -/
def setNARow (name : String) : List String → List Cell → List Cell
  | _, [] => []
  | [], r => r
  | c :: cs, v :: vs => (if c == name then none else v) :: setNARow name cs vs

/-- pandas column assignment df[name] = pd.NA: when the label already exists
the column is overwritten in place with missing values; otherwise an
all-missing column with that label is appended at the end. -/
def assignNA (t : Table) (name : String) : Table :=
  if t.cols.contains name then
    { cols := t.cols, rows := t.rows.map (fun r => setNARow name t.cols r) }
  else
    { cols := t.cols ++ [name], rows := t.rows.map (fun r => r ++ [none]) }

/-- Padding stage of clean_csv (src/app.py lines 87-89): if the frame has at
most MAX_NEEDED_IDX columns, execute df["__pad_i"] = pd.NA for i from the
current width up to MAX_NEEDED_IDX (the range is fixed before the loop
runs). An assignment whose pad name collides with an existing column label
overwrites that column instead of appending one. -/
def padStage (t : Table) : Table :=
  if (t.cols.length : Int) ≤ MAX_NEEDED_IDX then
    (List.range' t.cols.length (requiredWidth - t.cols.length)).foldl
      (fun df i => assignNA df ("__pad_" ++ toString i)) t
  else t

/-- Letter labels for a frame of the given width (src/app.py line 92). -/
def lettersFor (width : Nat) : List String :=
  (List.range width).map (fun (i : Nat) => index_to_col_letter (i : Int))

/-- Rename stage (src/app.py lines 92-93): relabel every column positionally
to its Excel letter. -/
def renameStage (t : Table) : Table :=
  { cols := lettersFor t.cols.length, rows := t.rows }

/-- Header mapping built by clean_csv (src/app.py lines 97-100): letter i
maps to the i-th original header, for i below min(original column count,
letter count). Python dict with distinct keys, modelled as an association
list. -/
def letterToHeader (originalCols : List String) (letters : List String) :
    List (String × String) :=
  (List.range (min originalCols.length letters.length)).map
    (fun (i : Nat) => (index_to_col_letter (i : Int), originalCols.getD i ""))

/-- Cell of a row under a column label: pandas label lookup df[c] restricted
to one row; none when the label is absent. The first occurrence wins (labels
are unique throughout this pipeline). -/
def colCell (cols : List String) (r : List Cell) (c : String) : Cell :=
  ((cols.zip r).lookup c).join

/-- Filter stage of clean_csv (src/app.py line 104):
df[(df[K] == K_VALUE) & (df[M] == M_VALUE)]. Accessing an absent label
raises a KeyError in pandas, modelled as Except.error; a missing cell
compares unequal to every configured value, so its row fails the mask. -/
def filterStage (t : Table) : Except String Table :=
  if t.cols.contains FILTER_K_LETTER && t.cols.contains FILTER_M_LETTER then
    .ok { cols := t.cols,
          rows := t.rows.filter (fun r =>
            colCell t.cols r FILTER_K_LETTER == some FILTER_K_VALUE &&
            colCell t.cols r FILTER_M_LETTER == some FILTER_M_VALUE) }
  else .error "KeyError"

/-- Python range(s, e+1) over integers, as a list. -/
def intRange (s e : Int) : List Int :=
  (List.range (e + 1 - s).toNat).map (fun (k : Nat) => s + (k : Int))

/-- Drop-column list (src/app.py lines 107-115): for every configured range,
every letter whose index lies in the inclusive range and that is currently a
column label. -/
def buildDropCols (cols : List String) : List String :=
  DROP_RANGES_LETTERS.foldl (fun acc p =>
    acc ++ ((intRange (col_letter_to_index p.1) (col_letter_to_index p.2)).map
      (fun idx => index_to_col_letter idx)).filter (fun letter => cols.contains letter)) []

/-- Drop labelled columns (src/app.py line 118): remove every column whose
label is in dc, cells included. -/
def dropColumns (t : Table) (dc : List String) : Table :=
  { cols := t.cols.filter (fun c => !(dc.contains c)),
    rows := t.rows.map (fun r =>
      ((t.cols.zip r).filter (fun p => !(dc.contains p.1))).map Prod.snd) }

/-- Result of clean_csv: the cleaned frame plus the letter-to-header map the
function attaches to df.attrs. -/
structure CleanResult where
  table : Table
  letter_to_header : List (String × String)
deriving DecidableEq

/-- clean_csv (src/app.py lines 79-121) on an in-memory table (the parsed
CSV: header names in cols, data rows in rows): pad, rename to letters, build
the header map, filter rows, drop the configured column ranges. -/
def clean_csv (t : Table) : Except String CleanResult :=
  let df1 := padStage t
  let df2 := renameStage df1
  let map := letterToHeader t.cols df2.cols
  match filterStage df2 with
  | .error e => .error e
  | .ok df3 => .ok ⟨dropColumns df3 (buildDropCols df3.cols), map⟩

/-- Union of column labels in order of first appearance, as produced by
pd.concat(..., sort=False) (src/app.py line 160). -/
def unionCols (ts : List Table) : List String :=
  ts.foldl (fun acc t => acc ++ t.cols.filter (fun c => !(acc.contains c))) []

/-- Concatenation stage (src/app.py line 160): the rows of all tables in
order, aligned to the unioned columns; cells absent in a source table are
missing. -/
def concatTables (ts : List Table) : Table :=
  { cols := unionCols ts,
    rows := (ts.map (fun t => t.rows.map (fun r =>
      (unionCols ts).map (fun c => colCell t.cols r c)))).flatten }

/-- dropna(how="all") (src/app.py line 161): keep the rows that have at
least one present cell. -/
def dropEmptyRows (t : Table) : Table :=
  { cols := t.cols, rows := t.rows.filter (fun r => r.any (fun c => c.isSome)) }

/-- Force the sort column to exist (src/app.py lines 164-166). -/
def ensureSortCol (t : Table) : Table :=
  if t.cols.contains SORT_LETTER then t
  else { cols := t.cols ++ [SORT_LETTER], rows := t.rows.map (fun r => r ++ [none]) }

/-- Sort keys: the sort column's cell of every row. -/
def sortKeys (t : Table) : List Cell :=
  t.rows.map (fun r => colCell t.cols r SORT_LETTER)

/-- Python's string comparison, lexicographic on code points, on the
underlying character lists. -/
def chListLt : List Char → List Char → Bool
  | _, [] => false
  | [], _ :: _ => true
  | a :: as, b :: bs =>
    if a.toNat < b.toNat then true
    else if b.toNat < a.toNat then false
    else chListLt as bs

/-- Python's less-than on strings. -/
def pyStrLt (a b : String) : Prop := chListLt a.data b.data = true

/-- Python's less-or-equal on strings, as the negation of greater-than. -/
def pyStrLe (a b : String) : Prop := chListLt b.data a.data = false

/-- Contract of the argsort pandas sort_values relies on (kind defaults to
quicksort): some permutation of the positions that puts the values in
ascending order. Tie order is not part of the contract - the default
quicksort is documented as not stable - so the merge engine below is
parameterized by the implementation. -/
def validArgsort (impl : List String → List Nat) : Prop :=
  ∀ ks : List String, (impl ks).Perm (List.range ks.length) ∧
    List.Sorted pyStrLe ((impl ks).map (fun i => ks.getD i ""))

/-- pandas nargsort with na_position="last": argsort the present values,
map the result back to original positions, then append the positions of the
missing values in their original order. -/
def nargsort (impl : List String → List Nat) (keys : List Cell) : List Nat :=
  let idx := List.range keys.length
  let nonNA := idx.filter (fun i => (keys.getD i none).isSome)
  let naIdx := idx.filter (fun i => !(keys.getD i none).isSome)
  let vals := nonNA.map (fun i => (keys.getD i none).getD "")
  (impl vals).map (fun p => nonNA.getD p 0) ++ naIdx

/-- sort_values(by=X, na_position="last", ignore_index=True)
(src/app.py line 167), given an argsort implementation. -/
def sortStage (impl : List String → List Nat) (t : Table) : Table :=
  { cols := t.cols, rows := (nargsort impl (sortKeys t)).map (fun i => t.rows.getD i []) }

/-- Column values under a label, row by row (merged[c]). -/
def colValues (t : Table) (c : String) : List Cell :=
  t.rows.map (fun r => colCell t.cols r c)

/-- Protected columns of the final cleanup (src/app.py line 170). -/
def keepCols : List String := [FILTER_K_LETTER, FILTER_M_LETTER, SORT_LETTER]

/-- Drop the all-missing columns outside keepCols (src/app.py lines 170-172). -/
def dropEmptyCols (t : Table) : Table :=
  dropColumns t (t.cols.filter (fun c =>
    !(keepCols.contains c) && (colValues t c).all (fun v => v.isNone)))

/-- fillna("") (src/app.py line 175). -/
def fillEmpty (t : Table) : Table :=
  { cols := t.cols, rows := t.rows.map (fun r => r.map (fun v => some (v.getD ""))) }

/-- Merged table just before the fillna step. -/
def mergePreFill (impl : List String → List Nat) (ts : List Table) : Table :=
  dropEmptyCols (sortStage impl (ensureSortCol (dropEmptyRows (concatTables ts))))

/-- The whole merge step (src/app.py lines 160-175). -/
def mergeStep (impl : List String → List Nat) (ts : List Table) : Table :=
  fillEmpty (mergePreFill impl ts)

/-- Per-file processing loop (src/app.py lines 146-153): each file is
cleaned; a file whose cleaning raises is skipped with a warning, and an
empty result (pandas df.empty: either axis of length zero) is not added to
the merge input. -/
def collectCleaned (files : List Table) : List Table :=
  files.filterMap (fun f =>
    match clean_csv f with
    | .ok r => if r.table.rows.isEmpty || r.table.cols.isEmpty then none else some r.table
    | .error _ => none)

/-- Comparison of positions by their sort keys (Python's lexicographic
string order), with a tie relation deciding between equal keys. -/
def keyRel (ks : List String) (tie : Nat → Nat → Prop) (i j : Nat) : Prop :=
  pyStrLt (ks.getD i "") (ks.getD j "") ∨ (ks.getD i "" = ks.getD j "" ∧ tie i j)

instance keyRelDecidable (ks : List String) (tie : Nat → Nat → Prop)
    [DecidableRel tie] : DecidableRel (keyRel ks tie) := fun i j => by
  unfold keyRel pyStrLt
  exact inferInstance

/-- A stable contract-compliant argsort: sort positions by key, breaking
ties by position. -/
def stableArgsort (ks : List String) : List Nat :=
  List.insertionSort (keyRel ks (fun i j => i ≤ j)) (List.range ks.length)

/-- An anti-stable contract-compliant argsort: sort positions by key,
breaking ties by reversed position, so equal-key positions come out in
reversed order. -/
def antiArgsort (ks : List String) : List Nat :=
  List.insertionSort (keyRel ks (fun i j => j ≤ i)) (List.range ks.length)

theorem chListLt_irrefl (l : List Char) : chListLt l l = false := by
  induction l with
  | nil => rfl
  | cons a as ih => simp [chListLt, ih]

theorem chListLt_asymm : ∀ a b : List Char, chListLt a b = true → chListLt b a = false := by
  intro a
  induction a with
  | nil =>
    intro b h
    cases b with
    | nil => exact absurd h (by simp [chListLt])
    | cons y ys => rfl
  | cons x xs ih =>
    intro b h
    cases b with
    | nil => exact absurd h (by simp [chListLt])
    | cons y ys =>
      simp only [chListLt] at h ⊢
      by_cases h₁ : x.toNat < y.toNat
      · rw [if_neg (by omega), if_pos h₁]
      · by_cases h₂ : y.toNat < x.toNat
        · rw [if_neg h₁, if_pos h₂] at h
          exact Bool.noConfusion h
        · rw [if_neg h₁, if_neg h₂] at h
          rw [if_neg h₂, if_neg h₁]
          exact ih ys h

theorem chListLt_conn : ∀ a b : List Char,
    chListLt a b = false → chListLt b a = false → a = b := by
  intro a
  induction a with
  | nil =>
    intro b h₁ h₂
    cases b with
    | nil => rfl
    | cons y ys => exact absurd h₁ (by simp [chListLt])
  | cons x xs ih =>
    intro b h₁ h₂
    cases b with
    | nil => exact absurd h₂ (by simp [chListLt])
    | cons y ys =>
      simp only [chListLt] at h₁ h₂
      by_cases hlt : x.toNat < y.toNat
      · rw [if_pos hlt] at h₁
        exact Bool.noConfusion h₁
      · by_cases hgt : y.toNat < x.toNat
        · rw [if_pos hgt] at h₂
          exact Bool.noConfusion h₂
        · rw [if_neg hlt, if_neg hgt] at h₁
          rw [if_neg hgt, if_neg hlt] at h₂
          have hxy : x = y := by
            have hx : x.toNat = x.val.toNat := rfl
            have hy : y.toNat = y.val.toNat := rfl
            exact Char.ext (UInt32.toNat.inj (by omega))
          rw [hxy, ih ys h₁ h₂]

theorem chListLt_trans : ∀ a b c : List Char,
    chListLt a b = true → chListLt b c = true → chListLt a c = true := by
  intro a
  induction a with
  | nil =>
    intro b c hab hbc
    cases b with
    | nil => exact absurd hab (by simp [chListLt])
    | cons y ys =>
      cases c with
      | nil => exact absurd hbc (by simp [chListLt])
      | cons z zs => rfl
  | cons x xs ih =>
    intro b c hab hbc
    cases b with
    | nil => exact absurd hab (by simp [chListLt])
    | cons y ys =>
      cases c with
      | nil => exact absurd hbc (by simp [chListLt])
      | cons z zs =>
        simp only [chListLt] at hab hbc ⊢
        by_cases h₁ : x.toNat < y.toNat
        · by_cases h₂ : y.toNat < z.toNat
          · rw [if_pos (by omega)]
          · by_cases h₃ : z.toNat < y.toNat
            · rw [if_neg h₂, if_pos h₃] at hbc
              exact Bool.noConfusion hbc
            · rw [if_pos (by omega)]
        · by_cases h₄ : y.toNat < x.toNat
          · rw [if_neg h₁, if_pos h₄] at hab
            exact Bool.noConfusion hab
          · rw [if_neg h₁, if_neg h₄] at hab
            by_cases h₂ : y.toNat < z.toNat
            · rw [if_pos (by omega)]
            · by_cases h₃ : z.toNat < y.toNat
              · rw [if_neg h₂, if_pos h₃] at hbc
                exact Bool.noConfusion hbc
              · rw [if_neg h₂, if_neg h₃] at hbc
                rw [if_neg (by omega), if_neg (by omega)]
                exact ih ys zs hab hbc

theorem validArgsort_keyRel (tie : Nat → Nat → Prop) [DecidableRel tie]
    (htot : ∀ i j, tie i j ∨ tie j i) (htr : ∀ i j k, tie i j → tie j k → tie i k) :
    validArgsort (fun ks => List.insertionSort (keyRel ks tie) (List.range ks.length)) := by
  intro ks
  haveI : IsTotal Nat (keyRel ks tie) := ⟨by
    intro i j
    by_cases h₁ : chListLt (ks.getD i "").data (ks.getD j "").data = true
    · exact Or.inl (Or.inl h₁)
    · by_cases h₂ : chListLt (ks.getD j "").data (ks.getD i "").data = true
      · exact Or.inr (Or.inl h₂)
      · have he : ks.getD i "" = ks.getD j "" :=
          String.toList_inj.mp (chListLt_conn _ _
            ((Bool.not_eq_true _).mp h₁) ((Bool.not_eq_true _).mp h₂))
        rcases htot i j with ht | ht
        · exact Or.inl (Or.inr ⟨he, ht⟩)
        · exact Or.inr (Or.inr ⟨he.symm, ht⟩)⟩
  haveI : IsTrans Nat (keyRel ks tie) := ⟨by
    intro i j k hij hjk
    rcases hij with h₁ | ⟨e₁, t₁⟩
    · rcases hjk with h₂ | ⟨e₂, t₂⟩
      · exact Or.inl (chListLt_trans _ _ _ h₁ h₂)
      · exact Or.inl (by rw [← e₂]; exact h₁)
    · rcases hjk with h₂ | ⟨e₂, t₂⟩
      · exact Or.inl (by unfold pyStrLt; rw [e₁]; exact h₂)
      · exact Or.inr ⟨e₁.trans e₂, htr i j k t₁ t₂⟩⟩
  refine ⟨List.perm_insertionSort _ _, ?_⟩
  have hs := List.sorted_insertionSort (keyRel ks tie) (List.range ks.length)
  exact List.Pairwise.map _ (fun a b hab => by
    rcases hab with h | ⟨e, _⟩
    · exact chListLt_asymm _ _ h
    · exact e ▸ chListLt_irrefl (ks.getD a "").data) hs

theorem validArgsort_stable : validArgsort stableArgsort := by
  have h := validArgsort_keyRel (fun i j => i ≤ j) (fun i j => Nat.le_total i j)
    (fun i j k h₁ h₂ => Nat.le_trans h₁ h₂)
  exact h

theorem validArgsort_anti : validArgsort antiArgsort := by
  have h := validArgsort_keyRel (fun i j => j ≤ i) (fun i j => (Nat.le_total j i))
    (fun i j k h₁ h₂ => Nat.le_trans h₂ h₁)
  exact h

namespace standalone

/-- Loop body of col_letter_to_index (src/app_standalone.py lines 17-19). -/
def letterLoop (result : Int) : List Char → Int
  | [] => result
  | ch :: rest => letterLoop (result * 26 + ((ch.toNat : Int) - 65 + 1)) rest

/-- col_letter_to_index (src/app_standalone.py lines 14-20). -/
def col_letter_to_index (letter : String) : Int :=
  letterLoop 0 (letter.data.map Char.toUpper) - 1

/-- Fuelled while-loop of index_to_col_letter (src/app_standalone.py
lines 26-28). -/
def indexLoopAux : Nat → Nat → List Char
  | _, 0 => []
  | 0, _ + 1 => []
  | fuel + 1, n + 1 => indexLoopAux fuel (n / 26) ++ [Char.ofNat (65 + n % 26)]

/-- The while-loop of index_to_col_letter run to completion. -/
def indexLoop (n : Nat) : List Char := indexLoopAux n n

/-- index_to_col_letter (src/app_standalone.py lines 22-29). -/
def index_to_col_letter (idx : Int) : String :=
  ⟨indexLoop (idx + 1).toNat⟩

/-- Configuration (src/app_standalone.py lines 32-38). -/
def FILTER_K_LETTER : String := "K"

/-- Second filter column letter (src/app_standalone.py line 33). -/
def FILTER_M_LETTER : String := "M"

/-- Expected value in column K (src/app_standalone.py line 34). -/
def FILTER_K_VALUE : String := "Station"

/-- Expected value in column M (src/app_standalone.py line 35). -/
def FILTER_M_VALUE : String := "SOC 5"

/-- Sort column letter (src/app_standalone.py line 36). -/
def SORT_LETTER : String := "X"

/-- Drop ranges (src/app_standalone.py line 38). -/
def DROP_RANGES_LETTERS : List (String × String) :=
  [("C", "I"), ("K", "M"), ("O", "U"), ("Y", "Z"), ("AE", "AH")]

/-- Needed indices (src/app_standalone.py lines 41-45). -/
def neededIdxs : List Int :=
  [col_letter_to_index FILTER_K_LETTER,
   col_letter_to_index FILTER_M_LETTER,
   col_letter_to_index SORT_LETTER] ++
  DROP_RANGES_LETTERS.map (fun p => col_letter_to_index p.2)

/-- Maximum needed index (src/app_standalone.py line 46). -/
def MAX_NEEDED_IDX : Int :=
  match neededIdxs with
  | [] => 0
  | h :: t => t.foldl max h

/-- Width padding guarantees. -/
def requiredWidth : Nat := (MAX_NEEDED_IDX + 1).toNat

/-- Per-row effect of df[name] = pd.NA on an existing label
(src/app_standalone.py line 59). -/
def setNARow (name : String) : List String → List Cell → List Cell
  | _, [] => []
  | [], r => r
  | c :: cs, v :: vs => (if c == name then none else v) :: setNARow name cs vs

/-- pandas column assignment df[name] = pd.NA (src/app_standalone.py
line 59): overwrite on an existing label, append otherwise. -/
def assignNA (t : Table) (name : String) : Table :=
  if t.cols.contains name then
    { cols := t.cols, rows := t.rows.map (fun r => setNARow name t.cols r) }
  else
    { cols := t.cols ++ [name], rows := t.rows.map (fun r => r ++ [none]) }

/-- Padding stage (src/app_standalone.py lines 57-59): run the pad
assignments; a colliding pad name overwrites instead of appending. -/
def padStage (t : Table) : Table :=
  if (t.cols.length : Int) ≤ MAX_NEEDED_IDX then
    (List.range' t.cols.length (requiredWidth - t.cols.length)).foldl
      (fun df i => assignNA df ("__pad_" ++ toString i)) t
  else t

/-- Letter labels for a given width (src/app_standalone.py line 62). -/
def lettersFor (width : Nat) : List String :=
  (List.range width).map (fun (i : Nat) => index_to_col_letter (i : Int))

/-- Rename stage (src/app_standalone.py lines 62-63). -/
def renameStage (t : Table) : Table :=
  { cols := lettersFor t.cols.length, rows := t.rows }

/-- Header mapping (src/app_standalone.py lines 67-70). -/
def letterToHeader (originalCols : List String) (letters : List String) :
    List (String × String) :=
  (List.range (min originalCols.length letters.length)).map
    (fun (i : Nat) => (index_to_col_letter (i : Int), originalCols.getD i ""))

/-- Filter stage (src/app_standalone.py line 74). -/
def filterStage (t : Table) : Except String Table :=
  if t.cols.contains FILTER_K_LETTER && t.cols.contains FILTER_M_LETTER then
    .ok { cols := t.cols,
          rows := t.rows.filter (fun r =>
            colCell t.cols r FILTER_K_LETTER == some FILTER_K_VALUE &&
            colCell t.cols r FILTER_M_LETTER == some FILTER_M_VALUE) }
  else .error "KeyError"

/-- Python range(s, e+1) over integers. -/
def intRange (s e : Int) : List Int :=
  (List.range (e + 1 - s).toNat).map (fun (k : Nat) => s + (k : Int))

/-- Drop-column list (src/app_standalone.py lines 77-85). -/
def buildDropCols (cols : List String) : List String :=
  DROP_RANGES_LETTERS.foldl (fun acc p =>
    acc ++ ((intRange (col_letter_to_index p.1) (col_letter_to_index p.2)).map
      (fun idx => index_to_col_letter idx)).filter (fun letter => cols.contains letter)) []

/-- Drop labelled columns (src/app_standalone.py line 88). -/
def dropColumns (t : Table) (dc : List String) : Table :=
  { cols := t.cols.filter (fun c => !(dc.contains c)),
    rows := t.rows.map (fun r =>
      ((t.cols.zip r).filter (fun p => !(dc.contains p.1))).map Prod.snd) }

/-- clean_csv (src/app_standalone.py lines 49-91). -/
def clean_csv (t : Table) : Except String CleanResult :=
  let df1 := padStage t
  let df2 := renameStage df1
  let map := letterToHeader t.cols df2.cols
  match filterStage df2 with
  | .error e => .error e
  | .ok df3 => .ok ⟨dropColumns df3 (buildDropCols df3.cols), map⟩

end standalone

theorem standalone_letterLoop_eq (r : Int) (l : List Char) :
    standalone.letterLoop r l = letterLoop r l := by
  induction l generalizing r with
  | nil => rfl
  | cons c cs ih => simp [standalone.letterLoop, letterLoop, ih]

theorem standalone_col_letter_to_index_eq (s : String) :
    standalone.col_letter_to_index s = col_letter_to_index s := by
  unfold standalone.col_letter_to_index col_letter_to_index
  rw [standalone_letterLoop_eq]

theorem standalone_indexLoopAux_eq (f : Nat) : ∀ n,
    standalone.indexLoopAux f n = indexLoopAux f n := by
  induction f with
  | zero => intro n; cases n <;> rfl
  | succ f ih =>
    intro n
    cases n with
    | zero => rfl
    | succ m =>
      show standalone.indexLoopAux f (m / 26) ++ _ = indexLoopAux f (m / 26) ++ _
      rw [ih]

theorem standalone_index_to_col_letter_eq (i : Int) :
    standalone.index_to_col_letter i = index_to_col_letter i := by
  unfold standalone.index_to_col_letter index_to_col_letter standalone.indexLoop indexLoop
  rw [standalone_indexLoopAux_eq]

theorem standalone_MAX_NEEDED_IDX_eq : standalone.MAX_NEEDED_IDX = MAX_NEEDED_IDX := by
  decide

theorem standalone_requiredWidth_eq : standalone.requiredWidth = requiredWidth := by
  decide

theorem standalone_DROP_RANGES_eq :
    standalone.DROP_RANGES_LETTERS = DROP_RANGES_LETTERS := by decide

theorem standalone_setNARow_eq (name : String) : ∀ (cols : List String) (r : List Cell),
    standalone.setNARow name cols r = setNARow name cols r := by
  intro cols
  induction cols with
  | nil => intro r; cases r <;> rfl
  | cons c cs ih =>
    intro r
    cases r with
    | nil => rfl
    | cons v vs =>
      show (if c == name then none else v) :: standalone.setNARow name cs vs =
        (if c == name then none else v) :: setNARow name cs vs
      rw [ih]

theorem standalone_assignNA_eq (t : Table) (name : String) :
    standalone.assignNA t name = assignNA t name := by
  unfold standalone.assignNA assignNA
  simp only [standalone_setNARow_eq]

theorem standalone_padStage_eq (t : Table) : standalone.padStage t = padStage t := by
  unfold standalone.padStage padStage
  rw [standalone_MAX_NEEDED_IDX_eq, standalone_requiredWidth_eq]
  simp only [standalone_assignNA_eq]

theorem standalone_lettersFor_eq (w : Nat) : standalone.lettersFor w = lettersFor w := by
  unfold standalone.lettersFor lettersFor
  simp only [standalone_index_to_col_letter_eq]

theorem standalone_renameStage_eq (t : Table) :
    standalone.renameStage t = renameStage t := by
  unfold standalone.renameStage renameStage
  rw [standalone_lettersFor_eq]

theorem standalone_letterToHeader_eq (o l : List String) :
    standalone.letterToHeader o l = letterToHeader o l := by
  unfold standalone.letterToHeader letterToHeader
  simp only [standalone_index_to_col_letter_eq]

theorem standalone_filterStage_eq (t : Table) :
    standalone.filterStage t = filterStage t := by
  unfold standalone.filterStage filterStage
  rfl

theorem standalone_intRange_eq (s e : Int) :
    standalone.intRange s e = intRange s e := by
  unfold standalone.intRange intRange
  rfl

theorem standalone_buildDropCols_eq (cols : List String) :
    standalone.buildDropCols cols = buildDropCols cols := by
  unfold standalone.buildDropCols buildDropCols
  simp only [standalone_DROP_RANGES_eq, standalone_intRange_eq,
    standalone_col_letter_to_index_eq, standalone_index_to_col_letter_eq]

theorem standalone_dropColumns_eq (t : Table) (dc : List String) :
    standalone.dropColumns t dc = dropColumns t dc := by
  unfold standalone.dropColumns dropColumns
  rfl

/-- C10: clean_csv of src/app.py and clean_csv of src/app_standalone.py are
extensionally equal: on every input table they yield the same outcome, with
identical cleaned tables and identical letter-to-header maps. -/
theorem claim_C10_clean_csv_equiv (t : Table) :
    clean_csv t = standalone.clean_csv t := by
  unfold clean_csv standalone.clean_csv
  simp only [standalone_padStage_eq, standalone_renameStage_eq, standalone_filterStage_eq,
    standalone_letterToHeader_eq, standalone_buildDropCols_eq, standalone_dropColumns_eq]

/-- Width of the padded frame inside clean_csv. -/
def paddedWidth (t : Table) : Nat := (padStage t).cols.length

/-- Letter labels of the padded frame inside clean_csv. -/
def lettersOf (t : Table) : List String := lettersFor (paddedWidth t)

/-- Rows surviving the filter stage of clean_csv. -/
def keptRows (t : Table) : List (List Cell) :=
  (padStage t).rows.filter (fun r =>
    colCell (lettersOf t) r FILTER_K_LETTER == some FILTER_K_VALUE &&
    colCell (lettersOf t) r FILTER_M_LETTER == some FILTER_M_VALUE)

/-- Drop list computed by clean_csv. -/
def dropListOf (t : Table) : List String := buildDropCols (lettersOf t)

theorem MAX_NEEDED_IDX_val : MAX_NEEDED_IDX = 33 := by decide

theorem requiredWidth_val : requiredWidth = 34 := by decide

theorem contains_iff_mem {l : List String} {c : String} : l.contains c = true ↔ c ∈ l := by
  simp [List.contains_eq_any_beq]

theorem padName_inj34 : ∀ i < 34, ∀ j < 34,
    ("__pad_" ++ toString i) = ("__pad_" ++ toString j) → i = j := by decide

theorem padNames_nodup {w n : Nat} (h : w + n ≤ 34) :
    ((List.range' w n).map (fun i => "__pad_" ++ toString i)).Nodup := by
  apply List.Nodup.map_on
  · intro x hx y hy he
    have hx' := List.mem_range'_1.mp hx
    have hy' := List.mem_range'_1.mp hy
    exact padName_inj34 x (by omega) y (by omega) he
  · exact List.nodup_range' w n

theorem contains_append_singleton {l : List String} {n m : String} (hne : m ≠ n) :
    (l ++ [n]).contains m = l.contains m := by
  cases hc : l.contains m with
  | true =>
    exact contains_iff_mem.mpr (List.mem_append.mpr (Or.inl (contains_iff_mem.mp hc)))
  | false =>
    cases hc2 : (l ++ [n]).contains m with
    | false => rfl
    | true =>
      rcases List.mem_append.mp (contains_iff_mem.mp hc2) with h | h
      · rw [contains_iff_mem.mpr h] at hc
        exact hc
      · exact absurd (List.mem_singleton.mp h) hne

theorem assignNA_cols_of_contains {t : Table} {name : String}
    (hc : t.cols.contains name = true) : (assignNA t name).cols = t.cols := by
  unfold assignNA
  rw [if_pos hc]

theorem assignNA_cols_of_not {t : Table} {name : String}
    (hc : ¬t.cols.contains name = true) :
    (assignNA t name).cols = t.cols ++ [name] := by
  unfold assignNA
  rw [if_neg hc]

theorem padFold_cols : ∀ (L : List Nat) (t : Table),
    ((L.map (fun i => "__pad_" ++ toString i)).Nodup) →
    (L.foldl (fun df i => assignNA df ("__pad_" ++ toString i)) t).cols =
      t.cols ++ (L.map (fun i => "__pad_" ++ toString i)).filter
        (fun n => !(t.cols.contains n)) := by
  intro L
  induction L with
  | nil => intro t _; simp
  | cons x xs ih =>
    intro t hnd
    rw [List.map_cons, List.nodup_cons] at hnd
    rw [List.foldl_cons, List.map_cons]
    by_cases hc : t.cols.contains ("__pad_" ++ toString x) = true
    · rw [ih (assignNA t ("__pad_" ++ toString x)) hnd.2, assignNA_cols_of_contains hc]
      rw [List.filter_cons_of_neg (by rw [hc]; exact fun hcon => Bool.noConfusion hcon)]
    · have hcf : t.cols.contains ("__pad_" ++ toString x) = false := by
        cases hb : t.cols.contains ("__pad_" ++ toString x)
        · rfl
        · exact absurd hb hc
      have hfeq : (xs.map (fun i => "__pad_" ++ toString i)).filter
            (fun n => !((t.cols ++ ["__pad_" ++ toString x]).contains n)) =
          (xs.map (fun i => "__pad_" ++ toString i)).filter
            (fun n => !(t.cols.contains n)) := by
        apply List.filter_congr
        intro m hm
        have hne : m ≠ "__pad_" ++ toString x := fun he => hnd.1 (he ▸ hm)
        rw [contains_append_singleton hne]
      rw [ih (assignNA t ("__pad_" ++ toString x)) hnd.2, assignNA_cols_of_not hc, hfeq,
        List.filter_cons_of_pos (by rw [hcf]; rfl), List.append_assoc]
      rfl

theorem padStage_cols (t : Table) (h : (t.cols.length : Int) ≤ MAX_NEEDED_IDX) :
    (padStage t).cols = t.cols ++
      (((List.range' t.cols.length (requiredWidth - t.cols.length)).map
        (fun i => "__pad_" ++ toString i)).filter (fun n => !(t.cols.contains n))) := by
  unfold padStage
  rw [if_pos h]
  apply padFold_cols
  apply padNames_nodup
  rw [MAX_NEEDED_IDX_val] at h
  rw [requiredWidth_val]
  omega

theorem paddedWidth_formula (t : Table) :
    paddedWidth t =
      if (t.cols.length : Int) ≤ MAX_NEEDED_IDX then
        t.cols.length +
          ((((List.range' t.cols.length (requiredWidth - t.cols.length)).map
            (fun i => "__pad_" ++ toString i)).filter
              (fun n => !(t.cols.contains n))).length)
      else t.cols.length := by
  by_cases h : (t.cols.length : Int) ≤ MAX_NEEDED_IDX
  · rw [if_pos h]
    unfold paddedWidth
    rw [padStage_cols t h, List.length_append]
  · rw [if_neg h]
    unfold paddedWidth padStage
    rw [if_neg h]

theorem paddedWidth_ge_cols (t : Table) : t.cols.length ≤ paddedWidth t := by
  rw [paddedWidth_formula]
  by_cases h : (t.cols.length : Int) ≤ MAX_NEEDED_IDX
  · rw [if_pos h]
    omega
  · rw [if_neg h]

theorem length_filter_split {α : Type} (p : α → Bool) (l : List α) :
    (l.filter p).length + (l.filter (fun a => !(p a))).length = l.length := by
  induction l with
  | nil => rfl
  | cons a as ih =>
    by_cases hp : p a = true
    · have h1 : (a :: as).filter p = a :: as.filter p := List.filter_cons_of_pos hp
      have h2 : (a :: as).filter (fun x => !(p x)) = as.filter (fun x => !(p x)) :=
        List.filter_cons_of_neg (by show ¬(!(p a)) = true; rw [hp]; decide)
      rw [h1, h2, List.length_cons, List.length_cons]
      omega
    · have hpf : p a = false := by
        cases hb : p a
        · rfl
        · exact absurd hb hp
      have h1 : (a :: as).filter p = as.filter p := List.filter_cons_of_neg hp
      have h2 : (a :: as).filter (fun x => !(p x)) = a :: as.filter (fun x => !(p x)) :=
        List.filter_cons_of_pos (by show (!(p a)) = true; rw [hpf]; rfl)
      rw [h1, h2, List.length_cons, List.length_cons]
      omega

theorem collide_filter_le (t : Table) {N : List String} (hnd : N.Nodup) :
    (N.filter (fun n => t.cols.contains n)).length ≤ t.cols.length := by
  have hsub : (N.filter (fun n => t.cols.contains n)) ⊆ t.cols := by
    intro m hm
    exact contains_iff_mem.mp (List.of_mem_filter hm)
  exact (List.subperm_of_subset (hnd.filter _) hsub).length_le

theorem paddedWidth_ge17 (t : Table) : 17 ≤ paddedWidth t := by
  rw [paddedWidth_formula]
  by_cases h : (t.cols.length : Int) ≤ MAX_NEEDED_IDX
  · rw [if_pos h]
    have hnd : (((List.range' t.cols.length (requiredWidth - t.cols.length)).map
        (fun i => "__pad_" ++ toString i))).Nodup := by
      apply padNames_nodup
      rw [MAX_NEEDED_IDX_val] at h
      rw [requiredWidth_val]
      omega
    have hlen : (((List.range' t.cols.length (requiredWidth - t.cols.length)).map
        (fun i => "__pad_" ++ toString i))).length = requiredWidth - t.cols.length := by
      rw [List.length_map, List.length_range']
    have hsplit : ((((List.range' t.cols.length (requiredWidth - t.cols.length)).map
          (fun i => "__pad_" ++ toString i)).filter
            (fun n => t.cols.contains n)).length) +
        ((((List.range' t.cols.length (requiredWidth - t.cols.length)).map
          (fun i => "__pad_" ++ toString i)).filter
            (fun n => !(t.cols.contains n))).length) =
        (((List.range' t.cols.length (requiredWidth - t.cols.length)).map
          (fun i => "__pad_" ++ toString i))).length :=
      length_filter_split _ _
    have hcol := collide_filter_le t hnd
    have hrw : requiredWidth = 34 := requiredWidth_val
    rw [MAX_NEEDED_IDX_val] at h
    omega
  · rw [if_neg h]
    rw [MAX_NEEDED_IDX_val] at h
    omega

theorem setNARow_length (name : String) : ∀ (cols : List String) (r : List Cell),
    (setNARow name cols r).length = r.length := by
  intro cols
  induction cols with
  | nil => intro r; cases r <;> rfl
  | cons c cs ih =>
    intro r
    cases r with
    | nil => rfl
    | cons v vs =>
      show ((if c == name then none else v) :: setNARow name cs vs).length = _
      rw [List.length_cons, List.length_cons, ih]

theorem assignNA_WF {t : Table} (h : t.WF) (name : String) : (assignNA t name).WF := by
  unfold assignNA
  by_cases hc : t.cols.contains name = true
  · rw [if_pos hc]
    intro r hr
    obtain ⟨r₀, hr₀, rfl⟩ := List.mem_map.mp hr
    show (setNARow name t.cols r₀).length = t.cols.length
    rw [setNARow_length, h r₀ hr₀]
  · rw [if_neg hc]
    intro r hr
    obtain ⟨r₀, hr₀, rfl⟩ := List.mem_map.mp hr
    show (r₀ ++ [none]).length = (t.cols ++ [name]).length
    rw [List.length_append, List.length_append, h r₀ hr₀]
    rfl

theorem padFold_WF : ∀ (L : List Nat) (t : Table), t.WF →
    (L.foldl (fun df i => assignNA df ("__pad_" ++ toString i)) t).WF := by
  intro L
  induction L with
  | nil => intro t h; exact h
  | cons x xs ih =>
    intro t h
    rw [List.foldl_cons]
    exact ih _ (assignNA_WF h _)

theorem padStage_WF_table (t : Table) (h : t.WF) : (padStage t).WF := by
  unfold padStage
  by_cases hc : (t.cols.length : Int) ≤ MAX_NEEDED_IDX
  · rw [if_pos hc]
    exact padFold_WF _ t h
  · rw [if_neg hc]
    exact h

theorem setNARow_getD_none (name : String) : ∀ (cols : List String) (r : List Cell) (i : Nat),
    r.getD i none = none → (setNARow name cols r).getD i none = none := by
  intro cols
  induction cols with
  | nil => intro r i h; cases r <;> exact h
  | cons c cs ih =>
    intro r i h
    cases r with
    | nil => exact h
    | cons v vs =>
      cases i with
      | zero =>
        show (if c == name then none else v) = none
        have hv : v = none := h
        rw [hv]
        split <;> rfl
      | succ i =>
        show (setNARow name cs vs).getD i none = none
        exact ih vs i h

theorem getD_append_none (r : List Cell) (i : Nat) (h : r.getD i none = none) :
    (r ++ [none]).getD i none = none := by
  by_cases hi : i < r.length
  · rw [List.getD_eq_getElem?_getD, List.getElem?_append_left hi,
      ← List.getD_eq_getElem?_getD]
    exact h
  · rw [List.getD_eq_getElem?_getD, List.getElem?_append_right (by omega)]
    cases hk : i - r.length with
    | zero => rfl
    | succ k => rfl

theorem assignNA_cell_none {t : Table} {w : Nat} (name : String)
    (h : ∀ r ∈ t.rows, ∀ i : Nat, w ≤ i → r.getD i none = none) :
    ∀ r ∈ (assignNA t name).rows, ∀ i : Nat, w ≤ i → r.getD i none = none := by
  unfold assignNA
  by_cases hc : t.cols.contains name = true
  · rw [if_pos hc]
    intro r hr i hi
    obtain ⟨r₀, hr₀, rfl⟩ := List.mem_map.mp hr
    exact setNARow_getD_none name t.cols r₀ i (h r₀ hr₀ i hi)
  · rw [if_neg hc]
    intro r hr i hi
    obtain ⟨r₀, hr₀, rfl⟩ := List.mem_map.mp hr
    exact getD_append_none r₀ i (h r₀ hr₀ i hi)

theorem padFold_cell_none (w : Nat) : ∀ (L : List Nat) (t : Table),
    (∀ r ∈ t.rows, ∀ i : Nat, w ≤ i → r.getD i none = none) →
    ∀ r ∈ (L.foldl (fun df i => assignNA df ("__pad_" ++ toString i)) t).rows,
      ∀ i : Nat, w ≤ i → r.getD i none = none := by
  intro L
  induction L with
  | nil => intro t h; exact h
  | cons x xs ih =>
    intro t h
    rw [List.foldl_cons]
    exact ih _ (assignNA_cell_none _ h)

theorem lettersFor_length (w : Nat) : (lettersFor w).length = w := by
  unfold lettersFor
  rw [List.length_map, List.length_range]

theorem lettersFor_getD (w i : Nat) (h : i < w) :
    (lettersFor w).getD i "" = index_to_col_letter (i : Int) := by
  unfold lettersFor
  have hlen : i < ((List.range w).map (fun i : Nat => index_to_col_letter (i : Int))).length := by
    simpa using h
  rw [List.getD_eq_getElem?_getD, List.getElem?_eq_getElem hlen]
  simp

theorem index_to_col_letter_natInj {i j : Nat}
    (h : index_to_col_letter (i : Int) = index_to_col_letter (j : Int)) : i = j := by
  unfold index_to_col_letter at h
  have hi : ((i : Int) + 1).toNat = i + 1 := by omega
  have hj : ((j : Int) + 1).toNat = j + 1 := by omega
  rw [hi, hj] at h
  have hd : indexLoop (i + 1) = indexLoop (j + 1) := congrArg String.data h
  have h1 := letterLoop_indexLoop (i + 1)
  rw [hd, letterLoop_indexLoop (j + 1)] at h1
  omega

theorem lettersFor_nodup (w : Nat) : (lettersFor w).Nodup := by
  unfold lettersFor
  exact List.Nodup.map (fun a b hab => index_to_col_letter_natInj hab) (List.nodup_range w)

theorem letter_mem_lettersFor {w i : Nat} (h : i < w) :
    index_to_col_letter (i : Int) ∈ lettersFor w := by
  unfold lettersFor
  exact List.mem_map.mpr ⟨i, List.mem_range.mpr h, rfl⟩

theorem mem_lettersFor_iff {w : Nat} {c : String} :
    c ∈ lettersFor w ↔ ∃ i < w, index_to_col_letter (i : Int) = c := by
  unfold lettersFor
  constructor
  · intro h
    obtain ⟨i, hi, rfl⟩ := List.mem_map.mp h
    exact ⟨i, List.mem_range.mp hi, rfl⟩
  · intro ⟨i, hi, he⟩
    exact List.mem_map.mpr ⟨i, List.mem_range.mpr hi, he⟩

theorem lookup_zip_getD : ∀ (cols : List String) (r : List Cell) (i : Nat),
    cols.Nodup → i < cols.length → i < r.length →
    (cols.zip r).lookup (cols.getD i "") = some (r.getD i none) := by
  intro cols
  induction cols with
  | nil =>
    intro r i _ h _
    simp at h
  | cons c cs ih =>
    intro r i hnd hi hr
    cases r with
    | nil => simp at hr
    | cons v vs =>
      cases i with
      | zero =>
        show ((c, v) :: cs.zip vs).lookup c = some v
        rw [List.lookup_cons]
        simp
      | succ i =>
        show ((c, v) :: cs.zip vs).lookup (cs.getD i "") = some (vs.getD i none)
        have himem : cs.getD i "" ∈ cs := by
          have hlt : i < cs.length := by simpa using hi
          rw [List.getD_eq_getElem?_getD, List.getElem?_eq_getElem hlt]
          exact List.getElem_mem hlt
        have hne : (cs.getD i "" == c) = false := by
          apply beq_eq_false_iff_ne.mpr
          intro hcon
          exact (List.nodup_cons.mp hnd).1 (hcon ▸ himem)
        rw [List.lookup_cons, hne]
        exact ih vs i (List.nodup_cons.mp hnd).2 (by simpa using hi) (by simpa using hr)

theorem colCell_lettersFor (w : Nat) (r : List Cell) (i : Nat)
    (hw : i < w) (hr : i < r.length) :
    colCell (lettersFor w) r (index_to_col_letter (i : Int)) = r.getD i none := by
  unfold colCell
  rw [← lettersFor_getD w i hw,
    lookup_zip_getD _ _ _ (lettersFor_nodup w) (by rw [lettersFor_length]; exact hw) hr]
  rfl

theorem letter_K_val : index_to_col_letter ((10 : Nat) : Int) = FILTER_K_LETTER := by decide

theorem letter_M_val : index_to_col_letter ((12 : Nat) : Int) = FILTER_M_LETTER := by decide

theorem letter_X_val : index_to_col_letter ((23 : Nat) : Int) = SORT_LETTER := by decide

theorem clean_csv_eq (t : Table) :
    clean_csv t = Except.ok
      ⟨dropColumns ⟨lettersOf t, keptRows t⟩ (dropListOf t),
       letterToHeader t.cols (lettersOf t)⟩ := by
  have hW : (17 : Nat) ≤ paddedWidth t := paddedWidth_ge17 t
  have hK : FILTER_K_LETTER ∈ lettersOf t := by
    have h10 : (10 : Nat) < paddedWidth t := by omega
    have hmem := letter_mem_lettersFor h10
    rw [letter_K_val] at hmem
    exact hmem
  have hM : FILTER_M_LETTER ∈ lettersOf t := by
    have h12 : (12 : Nat) < paddedWidth t := by omega
    have hmem := letter_mem_lettersFor h12
    rw [letter_M_val] at hmem
    exact hmem
  have hrn : renameStage (padStage t) = ⟨lettersOf t, (padStage t).rows⟩ := rfl
  have hfs : filterStage ⟨lettersOf t, (padStage t).rows⟩ =
      Except.ok ⟨lettersOf t, keptRows t⟩ := by
    unfold filterStage
    rw [if_pos]
    · rfl
    · rw [contains_iff_mem.mpr hK, contains_iff_mem.mpr hM]
      rfl
  simp only [clean_csv]
  rw [hrn, hfs]
  rfl

theorem K_mem_lettersOf (t : Table) : FILTER_K_LETTER ∈ lettersOf t := by
  have hW : (17 : Nat) ≤ paddedWidth t := paddedWidth_ge17 t
  have hmem := letter_mem_lettersFor (show (10 : Nat) < paddedWidth t by omega)
  rw [letter_K_val] at hmem
  exact hmem

theorem M_mem_lettersOf (t : Table) : FILTER_M_LETTER ∈ lettersOf t := by
  have hW : (17 : Nat) ≤ paddedWidth t := paddedWidth_ge17 t
  have hmem := letter_mem_lettersFor (show (12 : Nat) < paddedWidth t by omega)
  rw [letter_M_val] at hmem
  exact hmem

/-- C8 counterexample: applied to a table that lacks the filter columns, the
filter of clean_csv raises (pandas KeyError, modelled as Except.error); it
does not return an empty result. -/
theorem claim_C8_counterexample :
    filterStage ⟨["A", "B"], [[some "Station", some "SOC 5"]]⟩ =
      Except.error "KeyError" := rfl

/-- C8 (amended): a referenced filter column is never absent when the filter
of clean_csv is applied: after padding and renaming, letters K and M always
label columns, and clean_csv returns a result (never raises) on every input;
applying the filter directly to a table lacking a filter column raises a
KeyError (Except.error) instead of returning an empty result. -/
theorem claim_C8_filter_cols_present (t : Table) :
    FILTER_K_LETTER ∈ (renameStage (padStage t)).cols ∧
    FILTER_M_LETTER ∈ (renameStage (padStage t)).cols ∧
    ∃ r, clean_csv t = Except.ok r :=
  ⟨K_mem_lettersOf t, M_mem_lettersOf t, ⟨_, clean_csv_eq t⟩⟩

theorem padStage_WF (t : Table) (h : t.WF) :
    ∀ r ∈ (padStage t).rows, r.length = paddedWidth t :=
  fun r hr => padStage_WF_table t h r hr

theorem padStage_cell_none (t : Table) (h : t.WF) :
    ∀ r ∈ (padStage t).rows, ∀ i : Nat, t.cols.length ≤ i → r.getD i none = none := by
  have hbase : ∀ r ∈ t.rows, ∀ i : Nat, t.cols.length ≤ i → r.getD i none = none := by
    intro r hr i hi
    have hlen : r.length = t.cols.length := h r hr
    rw [List.getD_eq_getElem?_getD, List.getElem?_eq_none (by omega)]
    rfl
  unfold padStage
  by_cases hc : (t.cols.length : Int) ≤ MAX_NEEDED_IDX
  · rw [if_pos hc]
    exact padFold_cell_none t.cols.length _ t hbase
  · rw [if_neg hc]
    exact hbase

theorem lookup_append_left (a : String) (l₁ l₂ : List (String × String)) (b : String)
    (h : l₁.lookup a = some b) : (l₁ ++ l₂).lookup a = some b := by
  induction l₁ with
  | nil => exact absurd h (by simp)
  | cons p ps ih =>
    obtain ⟨k, v⟩ := p
    rw [List.lookup_cons] at h
    rw [List.cons_append, List.lookup_cons]
    cases hk : (a == k)
    · rw [hk] at h
      exact ih h
    · rw [hk] at h
      exact h

theorem lookup_append_right (a : String) (l₁ l₂ : List (String × String))
    (h : l₁.lookup a = none) : (l₁ ++ l₂).lookup a = l₂.lookup a := by
  induction l₁ with
  | nil => rfl
  | cons p ps ih =>
    obtain ⟨k, v⟩ := p
    rw [List.lookup_cons] at h
    rw [List.cons_append, List.lookup_cons]
    cases hk : (a == k)
    · rw [hk] at h
      exact ih h
    · rw [hk] at h
      exact absurd h (by simp)

theorem lookup_letterPairs (f : Nat → String) (n j : Nat) :
    ((List.range n).map (fun (i : Nat) => (index_to_col_letter (i : Int), f i))).lookup
      (index_to_col_letter (j : Int)) = if j < n then some (f j) else none := by
  induction n with
  | zero => simp
  | succ n ih =>
    rw [List.range_succ, List.map_append]
    by_cases hj : j < n
    · rw [lookup_append_left _ _ _ (f j) (by rw [ih, if_pos hj]), if_pos (by omega)]
    · rw [lookup_append_right _ _ _ (by rw [ih, if_neg hj])]
      by_cases hjn : j = n
      · subst hjn
        rw [List.map_cons, List.map_nil, List.lookup_cons]
        simp
      · have hne : (index_to_col_letter (j : Int) == index_to_col_letter (n : Int)) = false := by
          apply beq_eq_false_iff_ne.mpr
          intro hcon
          exact hjn (index_to_col_letter_natInj hcon)
        rw [List.map_cons, List.map_nil, List.lookup_cons, hne]
        rw [if_neg (by omega)]
        rfl

theorem lettersOf_length (t : Table) : (lettersOf t).length = paddedWidth t := by
  unfold lettersOf
  exact lettersFor_length _

theorem min_cols_lettersOf (t : Table) :
    min t.cols.length (lettersOf t).length = t.cols.length := by
  rw [lettersOf_length]
  exact Nat.min_eq_left (paddedWidth_ge_cols t)

/-- A source file whose second header collides with the pad name __pad_5. -/
def exCollide : Table :=
  { cols := ["a", "__pad_5"], rows := [[some "x", some "y"]] }

/-- C5 counterexample: the pad assignment df["__pad_i"] = pd.NA overwrites
an existing column with that label instead of appending one, so this
2-column file normalizes to a 33-column frame, narrower than
requiredWidth = 34, and the collided column's value is clobbered to
missing. -/
theorem claim_C5_counterexample :
    exCollide.cols.length = 2 ∧
    (renameStage (padStage exCollide)).cols.length = 33 ∧
    ¬(requiredWidth ≤ (renameStage (padStage exCollide)).cols.length) ∧
    exCollide.rows.map (fun r => r.getD 1 none) = [some "y"] ∧
    (padStage exCollide).rows.map (fun r => r.getD 1 none) = [none] := by decide

/-- C5 (amended): the normalizer stage of clean_csv runs the pad
assignments df["__pad_i"] = pd.NA for i from the raw width up to
MAX_NEEDED_IDX; an assignment whose pad name equals an existing header
overwrites that column with missing values instead of appending one, so the
padded width equals the raw width plus the number of non-colliding pad
names - always at least 17 and at least the raw width, but possibly less
than requiredWidth. Every cell at or beyond the raw width is missing, and
the header map sends letter i to the i-th original header exactly for the
original column indices, the other letters being absent from the map. -/
theorem claim_C5_normalizer (t : Table) (ht : t.WF) :
    17 ≤ (renameStage (padStage t)).cols.length ∧
    t.cols.length ≤ (renameStage (padStage t)).cols.length ∧
    (renameStage (padStage t)).cols.length =
      (if (t.cols.length : Int) ≤ MAX_NEEDED_IDX then
        t.cols.length +
          ((((List.range' t.cols.length (requiredWidth - t.cols.length)).map
            (fun i => "__pad_" ++ toString i)).filter
              (fun n => !(t.cols.contains n))).length)
       else t.cols.length) ∧
    (∀ r ∈ (renameStage (padStage t)).rows, ∀ i : Nat, t.cols.length ≤ i →
      r.getD i none = none) ∧
    (∀ i : Nat, i < t.cols.length →
      (letterToHeader t.cols (lettersOf t)).lookup (index_to_col_letter (i : Int)) =
        some (t.cols.getD i "")) ∧
    (∀ i : Nat, t.cols.length ≤ i →
      (letterToHeader t.cols (lettersOf t)).lookup (index_to_col_letter (i : Int)) = none) := by
  have hlen : (renameStage (padStage t)).cols.length = paddedWidth t := by
    show (lettersFor (padStage t).cols.length).length = _
    rw [lettersFor_length]
    rfl
  refine ⟨?_, ?_, ?_, ?_, ?_, ?_⟩
  · rw [hlen]
    exact paddedWidth_ge17 t
  · rw [hlen]
    exact paddedWidth_ge_cols t
  · rw [hlen]
    exact paddedWidth_formula t
  · intro r hr i hi
    exact padStage_cell_none t ht r hr i hi
  · intro i hi
    show (letterToHeader t.cols (lettersOf t)).lookup (index_to_col_letter (i : Int)) = _
    unfold letterToHeader
    rw [lookup_letterPairs, if_pos]
    rw [min_cols_lettersOf]
    exact hi
  · intro i hi
    unfold letterToHeader
    rw [lookup_letterPairs, if_neg]
    rw [min_cols_lettersOf]
    omega

theorem claim_C5_normalizer_witness :
    Table.WF ⟨["name", "qty"], [[some "x", none]]⟩ ∧
    (17 ≤ (renameStage (padStage ⟨["name", "qty"], [[some "x", none]]⟩)).cols.length ∧
     (⟨["name", "qty"], [[some "x", none]]⟩ : Table).cols.length ≤
       (renameStage (padStage ⟨["name", "qty"], [[some "x", none]]⟩)).cols.length ∧
     (renameStage (padStage ⟨["name", "qty"], [[some "x", none]]⟩)).cols.length =
       (if ((⟨["name", "qty"], [[some "x", none]]⟩ : Table).cols.length : Int) ≤
           MAX_NEEDED_IDX then
         (⟨["name", "qty"], [[some "x", none]]⟩ : Table).cols.length +
           ((((List.range' (⟨["name", "qty"], [[some "x", none]]⟩ : Table).cols.length
               (requiredWidth -
                 (⟨["name", "qty"], [[some "x", none]]⟩ : Table).cols.length)).map
             (fun i => "__pad_" ++ toString i)).filter
               (fun n => !((⟨["name", "qty"], [[some "x", none]]⟩ : Table).cols.contains
                 n))).length)
        else (⟨["name", "qty"], [[some "x", none]]⟩ : Table).cols.length) ∧
     (∀ r ∈ (renameStage (padStage ⟨["name", "qty"], [[some "x", none]]⟩)).rows, ∀ i : Nat,
       (⟨["name", "qty"], [[some "x", none]]⟩ : Table).cols.length ≤ i →
       r.getD i none = none) ∧
     (∀ i : Nat, i < (⟨["name", "qty"], [[some "x", none]]⟩ : Table).cols.length →
       (letterToHeader (⟨["name", "qty"], [[some "x", none]]⟩ : Table).cols
           (lettersOf ⟨["name", "qty"], [[some "x", none]]⟩)).lookup
         (index_to_col_letter (i : Int)) =
         some ((⟨["name", "qty"], [[some "x", none]]⟩ : Table).cols.getD i "")) ∧
     (∀ i : Nat, (⟨["name", "qty"], [[some "x", none]]⟩ : Table).cols.length ≤ i →
       (letterToHeader (⟨["name", "qty"], [[some "x", none]]⟩ : Table).cols
           (lettersOf ⟨["name", "qty"], [[some "x", none]]⟩)).lookup
         (index_to_col_letter (i : Int)) = none)) :=
  ⟨by decide, claim_C5_normalizer ⟨["name", "qty"], [[some "x", none]]⟩ (by decide)⟩

theorem K_idx_val : (col_letter_to_index FILTER_K_LETTER).toNat = 10 := by decide

theorem M_idx_val : (col_letter_to_index FILTER_M_LETTER).toNat = 12 := by decide

theorem keptRows_eq_filter_getD (t : Table) (ht : t.WF) :
    keptRows t = (padStage t).rows.filter (fun row =>
      row.getD 10 none == some FILTER_K_VALUE &&
      row.getD 12 none == some FILTER_M_VALUE) := by
  unfold keptRows
  apply List.filter_congr
  intro r hr
  have hlen : r.length = paddedWidth t := padStage_WF t ht r hr
  have hW := paddedWidth_ge17 t
  have hK := colCell_lettersFor (paddedWidth t) r 10 (by omega) (by omega)
  have hM := colCell_lettersFor (paddedWidth t) r 12 (by omega) (by omega)
  rw [letter_K_val] at hK
  rw [letter_M_val] at hM
  show (colCell (lettersFor (paddedWidth t)) r FILTER_K_LETTER == _ &&
    colCell (lettersFor (paddedWidth t)) r FILTER_M_LETTER == _) = _
  rw [hK, hM]

/-- C4: the row filter of clean_csv keeps exactly the padded rows whose
column-K cell (0-based index 10) equals "Station" and whose column-M cell
(index 12) equals "SOC 5", under exact equality - a missing cell never
equals a configured value - and the surviving rows appear in the output in
their original order, projected to the surviving columns. -/
theorem claim_C4_filter (t : Table) (r : CleanResult) (ht : t.WF)
    (h : clean_csv t = Except.ok r) :
    r.table.rows = ((padStage t).rows.filter (fun row =>
        row.getD ((col_letter_to_index FILTER_K_LETTER).toNat) none == some FILTER_K_VALUE &&
        row.getD ((col_letter_to_index FILTER_M_LETTER).toNat) none == some FILTER_M_VALUE)).map
      (fun row => (((lettersOf t).zip row).filter
        (fun p => !((dropListOf t).contains p.1))).map Prod.snd) := by
  rw [clean_csv_eq] at h
  obtain rfl := Except.ok.inj h.symm
  rw [K_idx_val, M_idx_val]
  show (keptRows t).map _ = _
  rw [keptRows_eq_filter_getD t ht]

/-- Example source file: 14 original columns; K (index 10) = "Station" on
all rows, M (index 12) = "SOC 5" on rows 0 and 2 but not on row 1. -/
def exFileA : Table :=
  { cols := ["h0", "h1", "h2", "h3", "h4", "h5", "h6", "h7", "h8", "h9", "h10", "h11",
             "h12", "h13"],
    rows := [
      [some "a0", some "a1", none, none, none, none, none, none, none, some "a9",
       some "Station", none, some "SOC 5", some "a13"],
      [some "b0", some "b1", none, none, none, none, none, none, none, some "b9",
       some "Station", none, some "SOC 4", some "b13"],
      [some "c0", some "c1", none, none, none, none, none, none, none, some "c9",
       some "Station", none, some "SOC 5", some "c13"]] }

theorem claim_C4_filter_witness :
    Table.WF exFileA ∧
    (clean_csv exFileA = Except.ok
      ⟨dropColumns ⟨lettersOf exFileA, keptRows exFileA⟩ (dropListOf exFileA),
       letterToHeader exFileA.cols (lettersOf exFileA)⟩) ∧
    (dropColumns ⟨lettersOf exFileA, keptRows exFileA⟩ (dropListOf exFileA) :
        Table).rows = ((padStage exFileA).rows.filter (fun row =>
        row.getD ((col_letter_to_index FILTER_K_LETTER).toNat) none == some FILTER_K_VALUE &&
        row.getD ((col_letter_to_index FILTER_M_LETTER).toNat) none == some FILTER_M_VALUE)).map
      (fun row => (((lettersOf exFileA).zip row).filter
        (fun p => !((dropListOf exFileA).contains p.1))).map Prod.snd) :=
  ⟨by decide, clean_csv_eq exFileA,
    claim_C4_filter exFileA _ (by decide) (clean_csv_eq exFileA)⟩

theorem mem_intRange {s e x : Int} : x ∈ intRange s e ↔ s ≤ x ∧ x ≤ e := by
  unfold intRange
  constructor
  · intro h
    obtain ⟨k, hk, rfl⟩ := List.mem_map.mp h
    have := List.mem_range.mp hk
    omega
  · intro ⟨h₁, h₂⟩
    exact List.mem_map.mpr ⟨(x - s).toNat, List.mem_range.mpr (by omega), by omega⟩

theorem mem_foldl_append {β : Type} (g : β → List String) (l : List β)
    (init : List String) (c : String) :
    c ∈ l.foldl (fun acc x => acc ++ g x) init ↔ c ∈ init ∨ ∃ x ∈ l, c ∈ g x := by
  induction l generalizing init with
  | nil => simp
  | cons x xs ih =>
    rw [List.foldl_cons, ih, List.mem_append]
    constructor
    · rintro ((h | h) | ⟨y, hy, hc⟩)
      · exact Or.inl h
      · exact Or.inr ⟨x, List.mem_cons_self x xs, h⟩
      · exact Or.inr ⟨y, List.mem_cons_of_mem x hy, hc⟩
    · rintro (h | ⟨y, hy, hc⟩)
      · exact Or.inl (Or.inl h)
      · rcases List.mem_cons.mp hy with rfl | hy'
        · exact Or.inl (Or.inr hc)
        · exact Or.inr ⟨y, hy', hc⟩

theorem mem_dropListOf {t : Table} {c : String} :
    c ∈ dropListOf t ↔ ∃ p ∈ DROP_RANGES_LETTERS, ∃ idx : Int,
      col_letter_to_index p.1 ≤ idx ∧ idx ≤ col_letter_to_index p.2 ∧
      index_to_col_letter idx = c ∧ c ∈ lettersOf t := by
  unfold dropListOf buildDropCols
  rw [mem_foldl_append]
  simp only [List.not_mem_nil, false_or]
  constructor
  · rintro ⟨p, hp, hc⟩
    obtain ⟨hmap, hcont⟩ := List.mem_filter.mp hc
    obtain ⟨idx, hidx, rfl⟩ := List.mem_map.mp hmap
    obtain ⟨h₁, h₂⟩ := mem_intRange.mp hidx
    exact ⟨p, hp, idx, h₁, h₂, rfl, contains_iff_mem.mp hcont⟩
  · rintro ⟨p, hp, idx, h₁, h₂, rfl, hmem⟩
    refine ⟨p, hp, List.mem_filter.mpr ⟨?_, contains_iff_mem.mpr hmem⟩⟩
    exact List.mem_map.mpr ⟨idx, mem_intRange.mpr ⟨h₁, h₂⟩, rfl⟩

theorem index_to_col_letter_intInj {a b : Int} (ha : 0 ≤ a) (hb : 0 ≤ b)
    (h : index_to_col_letter a = index_to_col_letter b) : a = b := by
  have ha' : a = ((a.toNat : Nat) : Int) := by omega
  have hb' : b = ((b.toNat : Nat) : Int) := by omega
  rw [ha', hb'] at h
  rw [ha', hb', index_to_col_letter_natInj h]

theorem drop_ranges_bounds : ∀ p ∈ DROP_RANGES_LETTERS,
    0 ≤ col_letter_to_index p.1 ∧ col_letter_to_index p.2 ≤ 33 := by decide

theorem proj_length_le (q : String → Bool) : ∀ (cols : List String) (r : List Cell),
    (((cols.zip r).filter (fun p => q p.1)).map Prod.snd).length ≤ (cols.filter q).length := by
  intro cols
  induction cols with
  | nil => intro r; simp
  | cons c cs ih =>
    intro r
    cases r with
    | nil => simp
    | cons v vs =>
      show ((((c, v) :: cs.zip vs).filter _).map _).length ≤ ((c :: cs).filter q).length
      by_cases hq : q c
      · rw [List.filter_cons_of_pos (by exact hq), List.filter_cons_of_pos hq]
        simpa using Nat.succ_le_succ (ih vs)
      · rw [List.filter_cons_of_neg (by simpa using hq), List.filter_cons_of_neg (by simpa using hq)]
        exact ih vs

theorem dropColumns_idem (tb : Table) (dc : List String) :
    dropColumns (dropColumns tb dc) dc = dropColumns tb dc := by
  unfold dropColumns
  refine congrArg₂ Table.mk ?_ ?_
  · rw [List.filter_filter]
    apply List.filter_congr
    intro a _
    cases dc.contains a <;> rfl
  · show (tb.rows.map _).map _ = _
    rw [List.map_map]
    apply List.map_congr_left
    intro r _
    show ((((tb.cols.filter _).zip
      (((tb.cols.zip r).filter (fun p => !(dc.contains p.1))).map Prod.snd)).filter
        (fun p => !(dc.contains p.1))).map Prod.snd) = _
    rw [List.filter_eq_self.mpr, List.map_snd_zip]
    · exact proj_length_le (fun c => !(dc.contains c)) tb.cols r
    · intro p hp
      obtain ⟨a, b⟩ := p
      have ha := (List.of_mem_zip hp).1
      exact (List.mem_filter.mp ha).2

/-- C6: for every configured drop range and every input table, no column
whose letter index lies in the inclusive range survives clean_csv; every
letter of the padded frame outside all ranges survives; ranges act
independently through a single drop list, and dropping already-absent
columns is a no-op (dropColumns is idempotent). -/
theorem claim_C6_drop_ranges (t : Table) (r : CleanResult)
    (h : clean_csv t = Except.ok r) :
    (∀ p ∈ DROP_RANGES_LETTERS, ∀ idx : Int,
      col_letter_to_index p.1 ≤ idx → idx ≤ col_letter_to_index p.2 →
      index_to_col_letter idx ∉ r.table.cols) ∧
    (∀ i : Nat, i < paddedWidth t →
      (∀ p ∈ DROP_RANGES_LETTERS,
        ¬(col_letter_to_index p.1 ≤ (i : Int) ∧ (i : Int) ≤ col_letter_to_index p.2)) →
      index_to_col_letter (i : Int) ∈ r.table.cols) ∧
    (∀ (tb : Table) (dc : List String),
      dropColumns (dropColumns tb dc) dc = dropColumns tb dc) := by
  rw [clean_csv_eq] at h
  obtain rfl := Except.ok.inj h.symm
  refine ⟨?_, ?_, dropColumns_idem⟩
  · intro p hp idx h₁ h₂ hmem
    have hmem' := List.mem_filter.mp hmem
    have hdrop : index_to_col_letter idx ∈ dropListOf t :=
      mem_dropListOf.mpr ⟨p, hp, idx, h₁, h₂, rfl, hmem'.1⟩
    have hcon := hmem'.2
    rw [contains_iff_mem.mpr hdrop] at hcon
    exact absurd hcon (by decide)
  · intro i hi hnr
    have hmem : index_to_col_letter (i : Int) ∈ lettersOf t := letter_mem_lettersFor hi
    have hnotdrop : index_to_col_letter (i : Int) ∉ dropListOf t := by
      intro hcon
      obtain ⟨p, hp, idx, h₁, h₂, heq, _⟩ := mem_dropListOf.mp hcon
      have hpos := (drop_ranges_bounds p hp).1
      have hexi : idx = (i : Int) :=
        index_to_col_letter_intInj (by omega) (by omega) heq
      exact hnr p hp ⟨by omega, by omega⟩
    show index_to_col_letter (i : Int) ∈
      (lettersOf t).filter (fun c => !((dropListOf t).contains c))
    apply List.mem_filter.mpr
    refine ⟨hmem, ?_⟩
    cases hc : (dropListOf t).contains (index_to_col_letter (i : Int))
    · rfl
    · exact absurd (contains_iff_mem.mp hc) hnotdrop

theorem claim_C6_drop_ranges_witness :
    (clean_csv exFileA = Except.ok
      ⟨dropColumns ⟨lettersOf exFileA, keptRows exFileA⟩ (dropListOf exFileA),
       letterToHeader exFileA.cols (lettersOf exFileA)⟩) ∧
    ((∀ p ∈ DROP_RANGES_LETTERS, ∀ idx : Int,
        col_letter_to_index p.1 ≤ idx → idx ≤ col_letter_to_index p.2 →
        index_to_col_letter idx ∉
          (dropColumns ⟨lettersOf exFileA, keptRows exFileA⟩ (dropListOf exFileA) :
            Table).cols) ∧
     (∀ i : Nat, i < paddedWidth exFileA →
        (∀ p ∈ DROP_RANGES_LETTERS,
          ¬(col_letter_to_index p.1 ≤ (i : Int) ∧ (i : Int) ≤ col_letter_to_index p.2)) →
        index_to_col_letter (i : Int) ∈
          (dropColumns ⟨lettersOf exFileA, keptRows exFileA⟩ (dropListOf exFileA) :
            Table).cols) ∧
     (∀ (tb : Table) (dc : List String),
        dropColumns (dropColumns tb dc) dc = dropColumns tb dc)) :=
  ⟨clean_csv_eq exFileA, claim_C6_drop_ranges exFileA _ (clean_csv_eq exFileA)⟩

/-- C9 (amended): for every source CSV with at most 12 original columns,
clean_csv returns a zero-row table: the M filter column (0-based index 12)
is synthesized by padding as entirely missing (K as well only when the file
has at most 10 columns), a missing cell never equals the configured filter
values, so every row fails the M conjunct of the filter; such an empty
per-file result is excluded from the merge input. -/
theorem claim_C9_narrow_files (t : Table) (ht : t.WF) (hn : t.cols.length ≤ 12) :
    (∃ r, clean_csv t = Except.ok r ∧ r.table.rows = []) ∧
    (∀ rest : List Table, collectCleaned (t :: rest) = collectCleaned rest) := by
  have hkept : keptRows t = [] := by
    unfold keptRows
    rw [List.filter_eq_nil_iff]
    intro r hr
    have hW := paddedWidth_ge17 t
    have hlen : r.length = paddedWidth t := padStage_WF t ht r hr
    have hM : colCell (lettersOf t) r FILTER_M_LETTER = none := by
      have h12 := colCell_lettersFor (paddedWidth t) r 12 (by omega) (by omega)
      rw [letter_M_val] at h12
      rw [show colCell (lettersOf t) r FILTER_M_LETTER =
        colCell (lettersFor (paddedWidth t)) r FILTER_M_LETTER from rfl, h12]
      exact padStage_cell_none t ht r hr 12 (by omega)
    rw [hM]
    simp
  have hrows : (dropColumns ⟨lettersOf t, keptRows t⟩ (dropListOf t)).rows = [] := by
    show (keptRows t).map _ = []
    rw [hkept]
    rfl
  refine ⟨⟨_, clean_csv_eq t, hrows⟩, ?_⟩
  intro rest
  show List.filterMap _ (t :: rest) = List.filterMap _ rest
  rw [List.filterMap_cons]
  rw [clean_csv_eq t]
  simp [hrows]

theorem claim_C9_narrow_files_witness :
    Table.WF ⟨["h0", "h1"], [[some "Station", some "SOC 5"]]⟩ ∧
    (⟨["h0", "h1"], [[some "Station", some "SOC 5"]]⟩ : Table).cols.length ≤ 12 ∧
    ((∃ r, clean_csv ⟨["h0", "h1"], [[some "Station", some "SOC 5"]]⟩ = Except.ok r ∧
        r.table.rows = []) ∧
     (∀ rest : List Table,
        collectCleaned (⟨["h0", "h1"], [[some "Station", some "SOC 5"]]⟩ :: rest) =
          collectCleaned rest)) :=
  ⟨by decide, by decide,
    claim_C9_narrow_files ⟨["h0", "h1"], [[some "Station", some "SOC 5"]]⟩
      (by decide) (by decide)⟩

/-- A 12-column source file whose K column (index 10) holds "Station". -/
def exTwelve : Table :=
  { cols := ["h0", "h1", "h2", "h3", "h4", "h5", "h6", "h7", "h8", "h9", "h10", "h11"],
    rows := [[some "a0", none, none, none, none, none, none, none, none, none,
              some "Station", none]] }

/-- C9 counterexample: for a source CSV with exactly 12 original columns the
filter columns are NOT both synthesized by padding as entirely missing: K
(index 10) is an original column whose padded value is still "Station". -/
theorem claim_C9_counterexample :
    exTwelve.cols.length = 12 ∧
    (padStage exTwelve).rows.map
      (fun r => r.getD ((col_letter_to_index FILTER_K_LETTER).toNat) none) =
      [some "Station"] := by decide

/-- Ascending order on optional sort keys with missing cells ordered after
all present ones (na_position="last"). -/
def optKeyLE : Cell → Cell → Prop
  | _, none => True
  | none, some _ => False
  | some x, some y => pyStrLe x y

/-- Positions of the present sort keys, in order (the non-NA side of pandas
nargsort). -/
def nonNAOf (keys : List Cell) : List Nat :=
  (List.range keys.length).filter (fun i => (keys.getD i none).isSome)

/-- Positions of the missing sort keys, in order. -/
def naIdxOf (keys : List Cell) : List Nat :=
  (List.range keys.length).filter (fun i => !(keys.getD i none).isSome)

/-- The present key values handed to the argsort. -/
def valsOf (keys : List Cell) : List String :=
  (nonNAOf keys).map (fun i => (keys.getD i none).getD "")

theorem nargsort_eq (impl : List String → List Nat) (keys : List Cell) :
    nargsort impl keys =
      (impl (valsOf keys)).map (fun p => (nonNAOf keys).getD p 0) ++ naIdxOf keys := rfl

theorem map_getD_range {α : Type} (l : List α) (d : α) :
    (List.range l.length).map (fun i => l.getD i d) = l := by
  induction l with
  | nil => rfl
  | cons a t ih =>
    show (List.range (t.length + 1)).map (fun i => (a :: t).getD i d) = a :: t
    rw [List.range_succ_eq_map, List.map_cons, List.map_map]
    refine congrArg₂ List.cons rfl ?_
    have hmc : (List.range t.length).map ((fun i => (a :: t).getD i d) ∘ Nat.succ) =
        (List.range t.length).map (fun i => t.getD i d) :=
      List.map_congr_left (fun i _ => rfl)
    rw [hmc, ih]

theorem nargsort_perm (impl : List String → List Nat) (hv : validArgsort impl)
    (keys : List Cell) : (nargsort impl keys).Perm (List.range keys.length) := by
  rw [nargsort_eq]
  have hlen : (valsOf keys).length = (nonNAOf keys).length := List.length_map _ _
  have h2 : ((impl (valsOf keys)).map (fun p => (nonNAOf keys).getD p 0)).Perm
      ((List.range (nonNAOf keys).length).map (fun p => (nonNAOf keys).getD p 0)) := by
    apply List.Perm.map
    rw [← hlen]
    exact (hv (valsOf keys)).1
  rw [map_getD_range (nonNAOf keys) 0] at h2
  have h3 : (nonNAOf keys ++ naIdxOf keys).Perm (List.range keys.length) :=
    List.filter_append_perm _ _
  exact (h2.append_right (naIdxOf keys)).trans h3

theorem mem_nargsort_lt (impl : List String → List Nat) (hv : validArgsort impl)
    (keys : List Cell) : ∀ i ∈ nargsort impl keys, i < keys.length := by
  intro i hi
  exact List.mem_range.mp ((nargsort_perm impl hv keys).mem_iff.mp hi)

theorem pairwise_of_right_true (l : List Cell)
    (h : ∀ b ∈ l, ∀ a, optKeyLE a b) : l.Pairwise optKeyLE := by
  induction l with
  | nil => exact List.Pairwise.nil
  | cons x xs ih =>
    refine List.Pairwise.cons ?_ (ih fun b hb a => h b (List.mem_cons_of_mem x hb) a)
    intro b hb
    exact h b (List.mem_cons_of_mem x hb) x

theorem nargsort_keys_sorted (impl : List String → List Nat) (hv : validArgsort impl)
    (keys : List Cell) :
    List.Sorted optKeyLE ((nargsort impl keys).map (fun i => keys.getD i none)) := by
  rw [nargsort_eq, List.map_append]
  have hlen : (valsOf keys).length = (nonNAOf keys).length := List.length_map _ _
  have hA : ((impl (valsOf keys)).map (fun p => (nonNAOf keys).getD p 0)).map
        (fun i => keys.getD i none) =
      (impl (valsOf keys)).map (fun p => some ((valsOf keys).getD p "")) := by
    rw [List.map_map]
    apply List.map_congr_left
    intro p hp
    have hpl : p < (valsOf keys).length :=
      List.mem_range.mp ((hv (valsOf keys)).1.mem_iff.mp hp)
    have hpn : p < (nonNAOf keys).length := by omega
    show keys.getD ((nonNAOf keys).getD p 0) none = some ((valsOf keys).getD p "")
    rw [List.getD_eq_getElem?_getD (nonNAOf keys), List.getElem?_eq_getElem hpn]
    rw [List.getD_eq_getElem?_getD (valsOf keys), List.getElem?_eq_getElem hpl]
    simp only [Option.getD_some]
    have hjmem : (nonNAOf keys)[p] ∈ nonNAOf keys := List.getElem_mem hpn
    have hjsome : (keys.getD ((nonNAOf keys)[p]) none).isSome = true :=
      (List.mem_filter.mp hjmem).2
    have hvp : (valsOf keys)[p] = (keys.getD ((nonNAOf keys)[p]) none).getD "" := by
      simp only [valsOf, List.getElem_map]
    rw [hvp]
    cases ho : keys.getD ((nonNAOf keys)[p]) none with
    | none => rw [ho] at hjsome; exact absurd hjsome (by decide)
    | some s => rfl
  have hB : (naIdxOf keys).map (fun i => keys.getD i none) =
      (naIdxOf keys).map (fun _ => (none : Cell)) := by
    apply List.map_congr_left
    intro i hi
    have hnone := (List.mem_filter.mp hi).2
    cases hk : keys.getD i none with
    | none => rfl
    | some s =>
      rw [hk] at hnone
      exact Bool.noConfusion hnone
  rw [hA, hB]
  show List.Pairwise optKeyLE _
  rw [List.pairwise_append]
  refine ⟨?_, ?_, ?_⟩
  · have hs := (hv (valsOf keys)).2
    have hs' : List.Pairwise
        (fun a b => pyStrLe ((valsOf keys).getD a "") ((valsOf keys).getD b ""))
        (impl (valsOf keys)) := (List.pairwise_map).mp hs
    exact (List.pairwise_map).mpr (hs'.imp (fun h => h))
  · apply pairwise_of_right_true
    intro b hb a
    obtain ⟨i, hi, rfl⟩ := List.mem_map.mp hb
    cases a <;> trivial
  · intro a ha b hb
    obtain ⟨i, hi, rfl⟩ := List.mem_map.mp hb
    cases a <;> trivial

theorem sortStage_perm (impl : List String → List Nat) (hv : validArgsort impl)
    (t : Table) : (sortStage impl t).rows.Perm t.rows := by
  show ((nargsort impl (sortKeys t)).map (fun i => t.rows.getD i [])).Perm t.rows
  have hp := nargsort_perm impl hv (sortKeys t)
  have hklen : (sortKeys t).length = t.rows.length := List.length_map _ _
  have h2 := hp.map (fun i => t.rows.getD i [])
  rw [hklen, map_getD_range t.rows []] at h2
  exact h2

theorem sortStage_sorted (impl : List String → List Nat) (hv : validArgsort impl)
    (t : Table) :
    List.Sorted optKeyLE ((sortStage impl t).rows.map
      (fun r => colCell t.cols r SORT_LETTER)) := by
  show List.Sorted optKeyLE (((nargsort impl (sortKeys t)).map
    (fun i => t.rows.getD i [])).map (fun r => colCell t.cols r SORT_LETTER))
  rw [List.map_map]
  have hc : (nargsort impl (sortKeys t)).map
      ((fun r => colCell t.cols r SORT_LETTER) ∘ (fun i => t.rows.getD i [])) =
      (nargsort impl (sortKeys t)).map (fun i => (sortKeys t).getD i none) := by
    apply List.map_congr_left
    intro i hi
    have hlt : i < (sortKeys t).length := mem_nargsort_lt impl hv (sortKeys t) i hi
    have hklen : (sortKeys t).length = t.rows.length := List.length_map _ _
    have hrl : i < t.rows.length := by omega
    show colCell t.cols (t.rows.getD i []) SORT_LETTER = (sortKeys t).getD i none
    rw [List.getD_eq_getElem?_getD t.rows, List.getElem?_eq_getElem hrl]
    rw [List.getD_eq_getElem?_getD (sortKeys t), List.getElem?_eq_getElem hlt]
    simp only [Option.getD_some]
    simp only [sortKeys, List.getElem_map]
  rw [hc]
  exact nargsort_keys_sorted impl hv (sortKeys t)

/-- C2 (amended): for every argsort implementation satisfying the contract
pandas sort_values relies on (its default kind, quicksort, guarantees an
ascending permutation but NOT tie order), the merge-step sort yields a
permutation of the rows it receives, ascending by the sort column with
every missing key ordered after every present key. The relative order of
rows with equal sort keys is implementation-defined, not guaranteed. -/
theorem claim_C2_merge_sort (impl : List String → List Nat) (hv : validArgsort impl)
    (ts : List Table) :
    (sortStage impl (ensureSortCol (dropEmptyRows (concatTables ts)))).rows.Perm
      (ensureSortCol (dropEmptyRows (concatTables ts))).rows ∧
    List.Sorted optKeyLE
      ((sortStage impl (ensureSortCol (dropEmptyRows (concatTables ts)))).rows.map
        (fun r => colCell (ensureSortCol (dropEmptyRows (concatTables ts))).cols r
          SORT_LETTER)) :=
  ⟨sortStage_perm impl hv _, sortStage_sorted impl hv _⟩

theorem claim_C2_merge_sort_witness :
    validArgsort stableArgsort ∧
    ((sortStage stableArgsort (ensureSortCol (dropEmptyRows
        (concatTables (collectCleaned [exFileA]))))).rows.Perm
      (ensureSortCol (dropEmptyRows (concatTables (collectCleaned [exFileA])))).rows ∧
     List.Sorted optKeyLE
      ((sortStage stableArgsort (ensureSortCol (dropEmptyRows
          (concatTables (collectCleaned [exFileA]))))).rows.map
        (fun r => colCell (ensureSortCol (dropEmptyRows
          (concatTables (collectCleaned [exFileA])))).cols r SORT_LETTER))) :=
  ⟨validArgsort_stable, claim_C2_merge_sort stableArgsort validArgsort_stable _⟩

/-- Seventeen merge-input rows whose sort keys in column X are all equal. -/
def tieFileA : Table :=
  { cols := ["A", "X"],
    rows := [
      [some "r00", some "1"], [some "r01", some "1"], [some "r02", some "1"],
      [some "r03", some "1"], [some "r04", some "1"], [some "r05", some "1"],
      [some "r06", some "1"], [some "r07", some "1"], [some "r08", some "1"],
      [some "r09", some "1"], [some "r10", some "1"], [some "r11", some "1"],
      [some "r12", some "1"], [some "r13", some "1"], [some "r14", some "1"],
      [some "r15", some "1"], [some "r16", some "1"]] }

/-- One more merge-input row with the same tied sort key. -/
def tieFileB : Table :=
  { cols := ["A", "X"], rows := [[some "r17", some "1"]] }

/-- C2 counterexample: the merge-step sort is NOT stable. antiArgsort is a
contract-compliant argsort (ascending permutation - all pandas guarantees
of its default quicksort), yet on eighteen rows whose sort keys all tie it
returns the rows in reversed order relative to the concatenated input. -/
theorem claim_C2_counterexample :
    validArgsort antiArgsort ∧
    (concatTables [tieFileA, tieFileB]).rows.map (fun r => r.getD 0 none) =
      [some "r00", some "r01", some "r02", some "r03", some "r04", some "r05",
       some "r06", some "r07", some "r08", some "r09", some "r10", some "r11",
       some "r12", some "r13", some "r14", some "r15", some "r16", some "r17"] ∧
    ((sortKeys (ensureSortCol (dropEmptyRows (concatTables [tieFileA, tieFileB])))).all
      (fun k => k == some "1")) = true ∧
    (mergeStep antiArgsort [tieFileA, tieFileB]).rows.map (fun r => r.getD 0 none) =
      [some "r17", some "r16", some "r15", some "r14", some "r13", some "r12",
       some "r11", some "r10", some "r09", some "r08", some "r07", some "r06",
       some "r05", some "r04", some "r03", some "r02", some "r01", some "r00"] :=
  ⟨validArgsort_anti, by decide, by decide, by decide⟩

theorem mem_unionCols {ts : List Table} {c : String} :
    c ∈ unionCols ts ↔ ∃ t ∈ ts, c ∈ t.cols := by
  suffices h : ∀ init, c ∈ ts.foldl (fun acc t => acc ++ t.cols.filter
      (fun x => !(acc.contains x))) init ↔ c ∈ init ∨ ∃ t ∈ ts, c ∈ t.cols by
    have h0 := h []
    unfold unionCols
    rw [h0]
    simp
  intro init
  induction ts generalizing init with
  | nil => simp
  | cons x xs ih =>
    rw [List.foldl_cons, ih]
    constructor
    · rintro (h | ⟨y, hy, hc⟩)
      · rcases List.mem_append.mp h with h' | h'
        · exact Or.inl h'
        · exact Or.inr ⟨x, List.mem_cons_self x xs, (List.mem_filter.mp h').1⟩
      · exact Or.inr ⟨y, List.mem_cons_of_mem x hy, hc⟩
    · rintro (h | ⟨y, hy, hc⟩)
      · exact Or.inl (List.mem_append.mpr (Or.inl h))
      · rcases List.mem_cons.mp hy with rfl | hy'
        · by_cases hin : c ∈ init
          · exact Or.inl (List.mem_append.mpr (Or.inl hin))
          · refine Or.inl (List.mem_append.mpr (Or.inr (List.mem_filter.mpr ⟨hc, ?_⟩)))
            cases hcon : init.contains c
            · rfl
            · exact absurd (contains_iff_mem.mp hcon) hin
        · exact Or.inr ⟨y, hy', hc⟩

theorem concatTables_WF (ts : List Table) : (concatTables ts).WF := by
  intro r hr
  show r.length = (unionCols ts).length
  obtain ⟨l, hl, hrl⟩ := List.mem_flatten.mp hr
  obtain ⟨t, ht, rfl⟩ := List.mem_map.mp hl
  obtain ⟨r₀, hr₀, rfl⟩ := List.mem_map.mp hrl
  exact List.length_map _ _

theorem dropEmptyRows_WF {t : Table} (h : t.WF) : (dropEmptyRows t).WF := by
  intro r hr
  exact h r (List.mem_of_mem_filter hr)

theorem ensureSortCol_WF {t : Table} (h : t.WF) : (ensureSortCol t).WF := by
  unfold ensureSortCol
  split
  · exact h
  · intro r hr
    obtain ⟨r₀, hr₀, rfl⟩ := List.mem_map.mp hr
    show (r₀ ++ [none]).length = (t.cols ++ [SORT_LETTER]).length
    rw [List.length_append, List.length_append, h r₀ hr₀]
    rfl

theorem sortStage_WF (impl : List String → List Nat) (hv : validArgsort impl)
    {t : Table} (h : t.WF) : (sortStage impl t).WF := by
  intro r hr
  obtain ⟨i, hi, rfl⟩ := List.mem_map.mp hr
  have hlt : i < (sortKeys t).length := mem_nargsort_lt impl hv (sortKeys t) i hi
  have hklen : (sortKeys t).length = t.rows.length := List.length_map _ _
  have hrl : i < t.rows.length := by omega
  show (t.rows.getD i []).length = t.cols.length
  rw [List.getD_eq_getElem?_getD t.rows, List.getElem?_eq_getElem hrl]
  simp only [Option.getD_some]
  exact h _ (List.getElem_mem hrl)

theorem zip_filter_proj (q : String → Bool) : ∀ (cols : List String) (r : List Cell),
    r.length = cols.length →
    (cols.filter q).zip (((cols.zip r).filter (fun p => q p.1)).map Prod.snd) =
      (cols.zip r).filter (fun p => q p.1) := by
  intro cols
  induction cols with
  | nil =>
    intro r hr
    have hnil : r = [] := List.length_eq_zero.mp hr
    subst hnil
    rfl
  | cons c cs ih =>
    intro r hr
    cases r with
    | nil => simp at hr
    | cons v vs =>
      have hlen : vs.length = cs.length := by simpa using hr
      by_cases hq : q c
      · show ((c :: cs).filter q).zip ((((c, v) :: cs.zip vs).filter
          (fun p => q p.1)).map Prod.snd) = ((c, v) :: cs.zip vs).filter (fun p => q p.1)
        rw [List.filter_cons_of_pos hq, List.filter_cons_of_pos (by exact hq)]
        show (c, v) :: (cs.filter q).zip (((cs.zip vs).filter (fun p => q p.1)).map Prod.snd)
          = (c, v) :: (cs.zip vs).filter (fun p => q p.1)
        rw [ih vs hlen]
      · show ((c :: cs).filter q).zip ((((c, v) :: cs.zip vs).filter
          (fun p => q p.1)).map Prod.snd) = ((c, v) :: cs.zip vs).filter (fun p => q p.1)
        rw [List.filter_cons_of_neg hq, List.filter_cons_of_neg (by exact hq)]
        exact ih vs hlen

theorem lookup_filter_fst (q : String → Bool) (c : String) (hc : q c = true) :
    ∀ l : List (String × Cell), (l.filter (fun p => q p.1)).lookup c = l.lookup c := by
  intro l
  induction l with
  | nil => rfl
  | cons p ps ih =>
    obtain ⟨k, v⟩ := p
    by_cases hk : c = k
    · subst hk
      rw [List.filter_cons_of_pos (by exact hc), List.lookup_cons, List.lookup_cons]
      simp
    · have hkf : (c == k) = false := beq_eq_false_iff_ne.mpr hk
      by_cases hqk : q k
      · rw [List.filter_cons_of_pos (by exact hqk), List.lookup_cons, List.lookup_cons, hkf]
        exact ih
      · rw [List.filter_cons_of_neg (by exact hqk), List.lookup_cons, hkf]
        exact ih

theorem colValues_dropColumns {t : Table} {dc : List String} (hwf : t.WF) (c : String)
    (hc : dc.contains c = false) :
    colValues (dropColumns t dc) c = colValues t c := by
  show (t.rows.map _).map _ = t.rows.map _
  rw [List.map_map]
  apply List.map_congr_left
  intro r hr
  show colCell ((dropColumns t dc).cols)
    ((((t.cols.zip r).filter (fun p => !(dc.contains p.1))).map Prod.snd)) c =
    colCell t.cols r c
  unfold colCell
  show ((((t.cols.filter (fun x => !(dc.contains x))).zip
    (((t.cols.zip r).filter (fun p => !(dc.contains p.1))).map Prod.snd)).lookup c).join) = _
  rw [zip_filter_proj (fun x => !(dc.contains x)) t.cols r (hwf r hr)]
  rw [lookup_filter_fst (fun x => !(dc.contains x)) c
    (by show (!(dc.contains c)) = true; rw [hc]; rfl) (t.cols.zip r)]

theorem contains_eq_false_iff {l : List String} {c : String} :
    l.contains c = false ↔ c ∉ l := by
  rw [← contains_iff_mem]
  cases l.contains c <;> simp

theorem keep_contains_X : keepCols.contains SORT_LETTER = true := by decide

/-- C1 (amended): after the merge step drops the all-empty columns, the
sort column X is present in the final output even when entirely empty; the
filter columns K and M never appear in the merged output, because the K-M
drop range of clean_csv removes them from every per-file table (recorded
here as the hypothesis on the merge inputs); and a merged column survives
the drop exactly when it is protected (in keepCols) or not entirely
missing, so every surviving column other than X holds a present cell. -/
theorem claim_C1_retained_cols (impl : List String → List Nat) (hv : validArgsort impl)
    (ts : List Table)
    (hts : ∀ t ∈ ts, FILTER_K_LETTER ∉ t.cols ∧ FILTER_M_LETTER ∉ t.cols) :
    SORT_LETTER ∈ (mergeStep impl ts).cols ∧
    FILTER_K_LETTER ∉ (mergeStep impl ts).cols ∧
    FILTER_M_LETTER ∉ (mergeStep impl ts).cols ∧
    (∀ c ∈ (mergePreFill impl ts).cols, c ≠ SORT_LETTER →
      (colValues (mergePreFill impl ts) c).all (fun v => v.isNone) = false) ∧
    (∀ c ∈ (sortStage impl (ensureSortCol (dropEmptyRows (concatTables ts)))).cols,
      (c ∈ (mergePreFill impl ts).cols ↔
        (c ∈ keepCols ∨
          (colValues (sortStage impl (ensureSortCol (dropEmptyRows (concatTables ts)))) c).all
            (fun v => v.isNone) = false))) := by
  have hKu : FILTER_K_LETTER ∉ unionCols ts := by
    intro hcon
    obtain ⟨t, ht, hc⟩ := mem_unionCols.mp hcon
    exact (hts t ht).1 hc
  have hMu : FILTER_M_LETTER ∉ unionCols ts := by
    intro hcon
    obtain ⟨t, ht, hc⟩ := mem_unionCols.mp hcon
    exact (hts t ht).2 hc
  have hK3 : FILTER_K_LETTER ∉ (ensureSortCol (dropEmptyRows (concatTables ts))).cols := by
    unfold ensureSortCol
    by_cases hc : (dropEmptyRows (concatTables ts)).cols.contains SORT_LETTER = true
    · rw [if_pos hc]
      exact hKu
    · rw [if_neg hc]
      intro hcon
      rcases List.mem_append.mp hcon with h | h
      · exact hKu h
      · exact absurd (List.mem_singleton.mp h) (by decide)
  have hM3 : FILTER_M_LETTER ∉ (ensureSortCol (dropEmptyRows (concatTables ts))).cols := by
    unfold ensureSortCol
    by_cases hc : (dropEmptyRows (concatTables ts)).cols.contains SORT_LETTER = true
    · rw [if_pos hc]
      exact hMu
    · rw [if_neg hc]
      intro hcon
      rcases List.mem_append.mp hcon with h | h
      · exact hMu h
      · exact absurd (List.mem_singleton.mp h) (by decide)
  have hX3 : SORT_LETTER ∈ (ensureSortCol (dropEmptyRows (concatTables ts))).cols := by
    unfold ensureSortCol
    by_cases hc : (dropEmptyRows (concatTables ts)).cols.contains SORT_LETTER = true
    · rw [if_pos hc]
      exact contains_iff_mem.mp hc
    · rw [if_neg hc]
      exact List.mem_append.mpr (Or.inr (List.mem_singleton.mpr rfl))
  have hwf4 : (sortStage impl (ensureSortCol (dropEmptyRows (concatTables ts)))).WF :=
    sortStage_WF impl hv (ensureSortCol_WF (dropEmptyRows_WF (concatTables_WF ts)))
  have hm5mem : ∀ c : String, c ∈ (mergePreFill impl ts).cols ↔
      (c ∈ (sortStage impl (ensureSortCol (dropEmptyRows (concatTables ts)))).cols ∧
       ((sortStage impl (ensureSortCol (dropEmptyRows (concatTables ts)))).cols.filter
          (fun c => !(keepCols.contains c) &&
            (colValues (sortStage impl (ensureSortCol (dropEmptyRows (concatTables ts)))) c).all
              (fun v => v.isNone))).contains c = false) := by
    intro c
    constructor
    · intro h
      obtain ⟨h1, h2⟩ := List.mem_filter.mp h
      refine ⟨h1, ?_⟩
      cases hcc : ((sortStage impl (ensureSortCol (dropEmptyRows (concatTables ts)))).cols.filter
          (fun c => !(keepCols.contains c) &&
            (colValues (sortStage impl (ensureSortCol (dropEmptyRows (concatTables ts)))) c).all
              (fun v => v.isNone))).contains c
      · rfl
      · rw [hcc] at h2
        exact Bool.noConfusion h2
    · intro ⟨h1, h2⟩
      refine List.mem_filter.mpr ⟨h1, ?_⟩
      rw [h2]
      rfl
  refine ⟨?_, ?_, ?_, ?_, ?_⟩
  · show SORT_LETTER ∈ (mergePreFill impl ts).cols
    apply (hm5mem SORT_LETTER).mpr
    refine ⟨hX3, ?_⟩
    apply contains_eq_false_iff.mpr
    intro hcon
    have hd := (List.mem_filter.mp hcon).2
    rw [keep_contains_X] at hd
    exact Bool.noConfusion hd
  · show FILTER_K_LETTER ∉ (mergePreFill impl ts).cols
    intro hcon
    exact hK3 ((hm5mem FILTER_K_LETTER).mp hcon).1
  · show FILTER_M_LETTER ∉ (mergePreFill impl ts).cols
    intro hcon
    exact hM3 ((hm5mem FILTER_M_LETTER).mp hcon).1
  · intro c hc hne
    obtain ⟨h4, hnd⟩ := (hm5mem c).mp hc
    have hnotdc := contains_eq_false_iff.mp hnd
    have hall : (colValues (sortStage impl (ensureSortCol (dropEmptyRows (concatTables ts)))) c).all
        (fun v => v.isNone) = false := by
      cases hkc : keepCols.contains c with
      | true =>
        have hmemk : c ∈ keepCols := contains_iff_mem.mp hkc
        rcases List.mem_cons.mp hmemk with rfl | hmemk'
        · exact absurd h4 hK3
        · rcases List.mem_cons.mp hmemk' with rfl | hmemk''
          · exact absurd h4 hM3
          · rcases List.mem_cons.mp hmemk'' with rfl | hmemk3
            · exact absurd rfl hne
            · exact absurd hmemk3 (List.not_mem_nil c)
      | false =>
        cases hal : (colValues (sortStage impl (ensureSortCol (dropEmptyRows
            (concatTables ts)))) c).all (fun v => v.isNone) with
        | false => rfl
        | true =>
          exfalso
          apply hnotdc
          refine List.mem_filter.mpr ⟨h4, ?_⟩
          rw [hkc, hal]
          rfl
    rw [show colValues (mergePreFill impl ts) c =
      colValues (sortStage impl (ensureSortCol (dropEmptyRows (concatTables ts)))) c from
      colValues_dropColumns hwf4 c hnd]
    exact hall
  · intro c hc4
    rw [hm5mem c]
    constructor
    · intro ⟨h4, hnd⟩
      have hnotdc := contains_eq_false_iff.mp hnd
      cases hkc : keepCols.contains c with
      | true => exact Or.inl (contains_iff_mem.mp hkc)
      | false =>
        cases hal : (colValues (sortStage impl (ensureSortCol (dropEmptyRows
            (concatTables ts)))) c).all (fun v => v.isNone) with
        | false => exact Or.inr rfl
        | true =>
          exfalso
          apply hnotdc
          refine List.mem_filter.mpr ⟨h4, ?_⟩
          rw [hkc, hal]
          rfl
    · intro h
      refine ⟨hc4, contains_eq_false_iff.mpr ?_⟩
      intro hcon
      have hd := (List.mem_filter.mp hcon).2
      rcases h with hkeep | hall
      · rw [contains_iff_mem.mpr hkeep] at hd
        exact Bool.noConfusion hd
      · rw [hall] at hd
        rw [Bool.and_false] at hd
        exact Bool.noConfusion hd

/-- C1 counterexample: on a run with one 14-column file through clean_csv,
the filter columns K and M are NOT present in the final merged output - the
K-M drop range of clean_csv removed them per file - while the sort column X
is present (and entirely empty before fillna). -/
theorem claim_C1_counterexample :
    FILTER_K_LETTER ∉ (mergeStep stableArgsort (collectCleaned [exFileA])).cols ∧
    FILTER_M_LETTER ∉ (mergeStep stableArgsort (collectCleaned [exFileA])).cols ∧
    SORT_LETTER ∈ (mergeStep stableArgsort (collectCleaned [exFileA])).cols ∧
    (mergeStep stableArgsort (collectCleaned [exFileA])).cols =
      ["A", "B", "J", "N", "X"] := by
  decide

theorem claim_C1_retained_cols_witness :
    validArgsort stableArgsort ∧
    (∀ t ∈ collectCleaned [exFileA],
      FILTER_K_LETTER ∉ t.cols ∧ FILTER_M_LETTER ∉ t.cols) ∧
    (SORT_LETTER ∈ (mergeStep stableArgsort (collectCleaned [exFileA])).cols ∧
     FILTER_K_LETTER ∉ (mergeStep stableArgsort (collectCleaned [exFileA])).cols ∧
     FILTER_M_LETTER ∉ (mergeStep stableArgsort (collectCleaned [exFileA])).cols ∧
     (∀ c ∈ (mergePreFill stableArgsort (collectCleaned [exFileA])).cols,
       c ≠ SORT_LETTER →
       (colValues (mergePreFill stableArgsort (collectCleaned [exFileA])) c).all
         (fun v => v.isNone) = false) ∧
     (∀ c ∈ (sortStage stableArgsort (ensureSortCol (dropEmptyRows
         (concatTables (collectCleaned [exFileA]))))).cols,
       (c ∈ (mergePreFill stableArgsort (collectCleaned [exFileA])).cols ↔
         (c ∈ keepCols ∨
           (colValues (sortStage stableArgsort (ensureSortCol (dropEmptyRows
             (concatTables (collectCleaned [exFileA]))))) c).all
             (fun v => v.isNone) = false)))) :=
  ⟨validArgsort_stable, by decide,
    claim_C1_retained_cols stableArgsort validArgsort_stable (collectCleaned [exFileA])
      (by decide)⟩
